import Mathlib

/-!
Verification of the Swiss tournament engine of `src/cogs/swiss.py` (class
`SwissAll`).  The SQLite tables are embedded as Lean structures (one
tournament per `DB` value, since every operation under scrutiny is scoped to
a single tournament id), and each Python method under scrutiny is embedded
as a pure Lean function over those structures.  SQLite `REAL` values are
modelled as `ℚ` (the Python code only ever manipulates these numbers with
exact decimal constants, `+`, `*`, `/`; IEEE-754 rounding is not modelled),
Python `str.lower()` is modelled per character and string comparison as
code-point lexicographic comparison, and `random.shuffle` is modelled by an
explicit shuffle-function parameter that is assumed to permute its input.
Display rounding (`round(x, k)`) of the standings rows is presentation only
and is not modelled.
-/

namespace Swiss

/-- The `matches.result` column: `'p1' | 'p2' | 'bye'` (NULL is `Option.none`). -/
inductive MResult
  | p1
  | p2
  | bye
deriving DecidableEq

/-- A row of the `players` table (for one tournament). -/
structure PlayerRow where
  id : Nat
  user_id : Nat
  display_name : String
  active : Nat
  score : ℚ
  deck1 : Option String
  deck2 : Option String
  actual_class : Option String
deriving DecidableEq

/-- A row of the `matches` table (for one tournament). -/
structure MatchRow where
  id : Nat
  round_id : Nat
  table_no : Nat
  p1_id : Option Nat
  p2_id : Option Nat
  result : Option MResult
  winner_player_id : Option Nat
  notes : Option String
deriving DecidableEq

/-- A row of the `rounds` table (`status` is `"ongoing"` or `"finished"`). -/
structure RoundRow where
  id : Nat
  round_no : Nat
  status : String
deriving DecidableEq

/-- One tournament's slice of the database: its `tournaments.status` value,
its player, round and match rows, and the banned `user_id`s
(`tournament_bans`).  The `matches` table is the field `matchRows` (the name
`matches` is reserved syntax in Lean). -/
structure DB where
  status : String
  players : List PlayerRow
  rounds : List RoundRow
  matchRows : List MatchRow
  bans : List Nat
deriving DecidableEq

/-! ## Result recorder (`set_match_result_atomic`, `update_score_for_match`) -/

/-- `SwissAll.set_match_result_atomic`: the conditional write
`UPDATE matches SET result=?, winner_player_id=? WHERE id=? AND result IS NULL`
together with the read-back of the already-stored result on failure.
Returns `((ok, current_result, current_winner), updated_row)`. -/
def set_match_result_atomic (m : MatchRow) (result : MResult) (winner_pid : Option Nat) :
    (Bool × Option MResult × Option Nat) × MatchRow :=
  match m.result with
  | some r => ((false, some r, m.winner_player_id), m)
  | none => ((true, some result, winner_pid),
      { m with result := some result, winner_player_id := winner_pid })

/-- `UPDATE players SET score=score+delta WHERE id=pid`. -/
def addScore (ps : List PlayerRow) (pid : Nat) (delta : ℚ) : List PlayerRow :=
  ps.map fun q => if q.id = pid then { q with score := q.score + delta } else q

/-- `SwissAll.update_score_for_match`: +3 to the winner; a BYE is also +3.
The `winner_pid` argument is accepted (as in the Python signature) but, as in
the Python body, never used. -/
def update_score_for_match (ps : List PlayerRow) (p1_id p2_id : Option Nat)
    (result : MResult) (winner_pid : Option Nat) : List PlayerRow :=
  match result, p1_id, p2_id with
  | .p1, some a, _ => addScore ps a 3
  | .p2, _, some b => addScore ps b 3
  | .bye, some a, none => addScore ps a 3
  | .bye, none, some b => addScore ps b 3
  | _, _, _ => ps

/-- One reporting attempt against a match, as performed by the winner button
(`RoundWinnerView.b_winner`) and the simulator: the conditional write, and
the point award executed only by the caller that received `ok = true`. -/
def recordResult (ps : List PlayerRow) (m : MatchRow) (c : MResult × Option Nat) :
    (Bool × Option MResult × Option Nat) × List PlayerRow × MatchRow :=
  match set_match_result_atomic m c.1 c.2 with
  | ((true, cur), m') => ((true, cur), update_score_for_match ps m.p1_id m.p2_id c.1 c.2, m')
  | ((false, cur), m') => ((false, cur), ps, m')

/-- A sequence of reporting attempts against the same match, each seeing the
state left by the previous one; returns the trace of (output, state-after). -/
def runRecord (ps : List PlayerRow) (m : MatchRow) :
    List (MResult × Option Nat) →
      List ((Bool × Option MResult × Option Nat) × List PlayerRow × MatchRow)
  | [] => []
  | c :: cs =>
    let r := recordResult ps m c
    r :: runRecord r.2.1 r.2.2 cs

theorem runRecord_frozen (ps : List PlayerRow) (m : MatchRow) (r : MResult)
    (h : m.result = some r) (cs : List (MResult × Option Nat)) :
    runRecord ps m cs = cs.map fun _ => ((false, some r, m.winner_player_id), ps, m) := by
  induction cs with
  | nil => rfl
  | cons c cs ih =>
    simp only [runRecord, recordResult, set_match_result_atomic, h, List.map_cons]
    exact congrArg _ ih

/-- **C1.** Over any sequence of `recordResult` calls against the same match:
at most one call gets `applied = true`; if the match's result is already set,
every call returns `applied = false` with the stored result and winner and
changes neither the match nor any score; if the result is unset, the first
call (and only it) applies its write and triggers the single point award,
and every later call returns `applied = false` with the first call's stored
result and winner, leaving everything unchanged. -/
theorem recordResult_at_most_one_write (ps : List PlayerRow) (m : MatchRow)
    (cs : List (MResult × Option Nat)) :
    ((runRecord ps m cs).countP fun e => e.1.1) ≤ 1 ∧
    (∀ r, m.result = some r →
      runRecord ps m cs = cs.map fun _ => ((false, some r, m.winner_player_id), ps, m)) ∧
    (m.result = none → ∀ c cs', cs = c :: cs' →
      runRecord ps m cs =
        ((true, some c.1, c.2),
          update_score_for_match ps m.p1_id m.p2_id c.1 c.2,
          { m with result := some c.1, winner_player_id := c.2 }) ::
        cs'.map fun _ =>
          ((false, some c.1, c.2),
            update_score_for_match ps m.p1_id m.p2_id c.1 c.2,
            { m with result := some c.1, winner_player_id := c.2 })) := by
  have h3 : m.result = none → ∀ c cs', cs = c :: cs' →
      runRecord ps m cs =
        ((true, some c.1, c.2),
          update_score_for_match ps m.p1_id m.p2_id c.1 c.2,
          { m with result := some c.1, winner_player_id := c.2 }) ::
        cs'.map fun _ =>
          ((false, some c.1, c.2),
            update_score_for_match ps m.p1_id m.p2_id c.1 c.2,
            { m with result := some c.1, winner_player_id := c.2 }) := by
    intro h c cs' hcs
    subst hcs
    simp only [runRecord, recordResult, set_match_result_atomic, h]
    exact congrArg _ (runRecord_frozen _ _ c.1 rfl cs')
  refine ⟨?_, fun r h => runRecord_frozen ps m r h cs, h3⟩
  rcases hm : m.result with _ | r
  · cases cs with
    | nil => simp [runRecord]
    | cons c cs' =>
      rw [h3 hm c cs' rfl, List.countP_cons, List.countP_map]
      simp [Function.comp_def]
  · rw [runRecord_frozen ps m r hm cs, List.countP_map]
    simp [Function.comp_def]

/-- Witness for C1 at a concrete match and call sequence: two racing reports
with different winners; only the first applies, the second is told the stored
result, and only one +3 award happens. -/
theorem recordResult_at_most_one_write_witness :
    (∀ r, (MatchRow.mk 7 1 1 (some 1) (some 2) none none none).result = some r →
      runRecord [] (MatchRow.mk 7 1 1 (some 1) (some 2) none none none)
        [(.p1, some 1), (.p2, some 2)] = []) ∧
    ((runRecord [] (MatchRow.mk 7 1 1 (some 1) (some 2) none none none)
        [(.p1, some 1), (.p2, some 2)]).countP fun e => e.1.1) ≤ 1 := by
  have h := recordResult_at_most_one_write []
    (MatchRow.mk 7 1 1 (some 1) (some 2) none none none) [(.p1, some 1), (.p2, some 2)]
  exact ⟨fun r hr => Option.noConfusion hr, h.1⟩

/-! ## Pairing engine (`_pair_and_post`, lines 1256-1296) -/

/-- The `while len(l) >= 2: a, b = l.pop(), l.pop()` loop, after reversing the
list (Python's `pop()` takes from the end): pairs up consecutive elements and
returns the pairs together with the not-yet-reversed leftover (length ≤ 1). -/
def pairLoopRev : List PlayerRow → List (PlayerRow × PlayerRow) × List PlayerRow
  | a :: b :: rest =>
    let r := pairLoopRev rest
    ((a, b) :: r.1, r.2)
  | rest => ([], rest)

/-- The pop-from-the-end pairing loop on a list in its original order. -/
def pairFromEnd (l : List PlayerRow) : List (PlayerRow × PlayerRow) × List PlayerRow :=
  let r := pairLoopRev l.reverse
  (r.1, r.2.reverse)

/-- `max(p.score for p in players)` (0 on the empty list, which the caller
excludes). -/
def maxScore (ps : List PlayerRow) : ℚ :=
  match ps with
  | [] => 0
  | p :: rest => rest.foldl (fun m q => max m q.score) p.score

/-- One table produced by pairing: the data `_pair_and_post` passes to
`add_match` (a bye is stored with `result='bye'`, the recipient as winner and
the note `BYE`). -/
structure PairedMatch where
  table_no : Nat
  p1 : PlayerRow
  p2 : Option PlayerRow
deriving DecidableEq

/-- The pairing algorithm of `_pair_and_post` after fetching the active
players: partition by top score, shuffle each part, pair inside the top
bracket, fold the bracket leftover into the remainder pool, shuffle, pair,
and give a final leftover a BYE; tables are numbered from 1 in pairing
order.  The three `random.shuffle` calls are the function parameters
`sh1 sh2 sh3` (assumed to permute their input). -/
def pairCore (sh1 sh2 sh3 : List PlayerRow → List PlayerRow) (players : List PlayerRow) :
    Option (List PairedMatch) :=
  if players.length < 2 then none
  else
    let top := maxScore players
    let group := sh1 (players.filter fun p => p.score == top)
    let others := sh2 (players.filter fun p => !(p.score == top))
    let r1 := pairFromEnd group
    let pool := sh3 (others ++ r1.2)
    let r2 := pairFromEnd pool
    let allPairs : List (PlayerRow × Option PlayerRow) :=
      r1.1.map (fun ab => (ab.1, some ab.2)) ++ r2.1.map (fun ab => (ab.1, some ab.2)) ++
        r2.2.map fun x => (x, none)
    some (allPairs.enum.map fun ie => ⟨ie.1 + 1, ie.2.1, ie.2.2⟩)

/-- The players seated by a pairing (player A, player B, or bye recipient). -/
def pairedPlayers (ms : List PairedMatch) : List PlayerRow :=
  ms.flatMap fun m => m.p1 :: m.p2.toList

theorem flatMap_map_eq {α β γ : Type _} (f : α → β) (g : β → List γ) :
    ∀ l : List α, (l.map f).flatMap g = l.flatMap fun x => g (f x)
  | [] => rfl
  | a :: l => by
    simp only [List.map_cons, List.flatMap_cons]
    exact congrArg _ (flatMap_map_eq f g l)

theorem pairLoopRev_flatten :
    ∀ l : List PlayerRow,
      ((pairLoopRev l).1.flatMap fun ab => [ab.1, ab.2]) ++ (pairLoopRev l).2 = l
  | [] => by simp [pairLoopRev]
  | [a] => by simp [pairLoopRev]
  | a :: b :: rest => by
    have ih := pairLoopRev_flatten rest
    simp only [pairLoopRev, List.flatMap_cons, List.append_assoc]
    simpa using ih

theorem pairLoopRev_length :
    ∀ l : List PlayerRow,
      (pairLoopRev l).1.length = l.length / 2 ∧ (pairLoopRev l).2.length = l.length % 2
  | [] => by simp [pairLoopRev]
  | [a] => by simp [pairLoopRev]
  | a :: b :: rest => by
    have ih := pairLoopRev_length rest
    simp only [pairLoopRev, List.length_cons]
    exact ⟨by omega, by omega⟩

theorem pairFromEnd_perm (l : List PlayerRow) :
    (((pairFromEnd l).1.flatMap fun ab => [ab.1, ab.2]) ++ (pairFromEnd l).2).Perm l := by
  have h := pairLoopRev_flatten l.reverse
  have h1 : (((pairFromEnd l).1.flatMap fun ab => [ab.1, ab.2]) ++ (pairFromEnd l).2).Perm
      (((pairLoopRev l.reverse).1.flatMap fun ab => [ab.1, ab.2]) ++ (pairLoopRev l.reverse).2) :=
    List.Perm.append_left _ (List.reverse_perm _)
  rw [h] at h1
  exact h1.trans (List.reverse_perm l)

theorem pairFromEnd_length (l : List PlayerRow) :
    (pairFromEnd l).1.length = l.length / 2 ∧ (pairFromEnd l).2.length = l.length % 2 := by
  have h := pairLoopRev_length l.reverse
  simpa [pairFromEnd] using h

theorem enumFrom_flatMap_snd {α β : Type _} (f : α → List β) :
    ∀ (n : Nat) (l : List α), ((List.enumFrom n l).flatMap fun p => f p.2) = l.flatMap f
  | _, [] => rfl
  | n, a :: l => by
    simp only [List.enumFrom_cons, List.flatMap_cons]
    exact congrArg _ (enumFrom_flatMap_snd f (n + 1) l)

theorem enumFrom_map_table {α : Type _} :
    ∀ (n : Nat) (l : List α),
      ((List.enumFrom n l).map fun p => p.1 + 1) = List.range' (n + 1) l.length
  | _, [] => rfl
  | n, a :: l => by
    simp only [List.enumFrom_cons, List.map_cons, List.length_cons, List.range'_succ]
    exact congrArg _ (enumFrom_map_table (n + 1) l)

/-- **C3.** For every set of `n ≥ 2` active players and every outcome of the
three shuffles, `_pair_and_post`'s pairing produces exactly `⌈n/2⌉` tables,
the players seated (as A, B, or bye recipient) are a permutation of the
players (so with distinct player rows, each appears exactly once), and the
table numbers are `1, 2, …` sequentially in pairing order. -/
theorem pairCore_complete (sh1 sh2 sh3 : List PlayerRow → List PlayerRow)
    (hsh1 : ∀ l, (sh1 l).Perm l) (hsh2 : ∀ l, (sh2 l).Perm l) (hsh3 : ∀ l, (sh3 l).Perm l)
    (players : List PlayerRow) (h2 : 2 ≤ players.length) :
    ∃ ms, pairCore sh1 sh2 sh3 players = some ms ∧
      ms.length = (players.length + 1) / 2 ∧
      (pairedPlayers ms).Perm players ∧
      (players.Nodup → ∀ p ∈ players, (pairedPlayers ms).count p = 1) ∧
      ms.map (fun m => m.table_no) = List.range' 1 ms.length := by
  have hnot : ¬ players.length < 2 := by omega
  refine ⟨_, by rw [pairCore, if_neg hnot], ?_⟩
  set top := maxScore players with htop
  set group := sh1 (players.filter fun p => p.score == top) with hgroup
  set others := sh2 (players.filter fun p => !(p.score == top)) with hothers
  set pool := sh3 (others ++ (pairFromEnd group).2) with hpool
  set allPairs : List (PlayerRow × Option PlayerRow) :=
    (pairFromEnd group).1.map (fun ab => (ab.1, some ab.2)) ++
      (pairFromEnd pool).1.map (fun ab => (ab.1, some ab.2)) ++
      (pairFromEnd pool).2.map (fun x => (x, none)) with hall
  have hseat :
      pairedPlayers (allPairs.enum.map fun ie => (⟨ie.1 + 1, ie.2.1, ie.2.2⟩ : PairedMatch)) =
        allPairs.flatMap fun ab => ab.1 :: ab.2.toList := by
    unfold pairedPlayers
    rw [flatMap_map_eq]
    exact enumFrom_flatMap_snd (fun ab => ab.1 :: ab.2.toList) 0 allPairs
  have hgperm : group.Perm (players.filter fun p => p.score == top) := hsh1 _
  have hoperm : others.Perm (players.filter fun p => !(p.score == top)) := hsh2 _
  have hpperm : pool.Perm (others ++ (pairFromEnd group).2) := hsh3 _
  have h1 : (allPairs.flatMap fun ab => ab.1 :: ab.2.toList) =
      ((pairFromEnd group).1.flatMap fun ab => [ab.1, ab.2]) ++
        ((((pairFromEnd pool).1.flatMap fun ab => [ab.1, ab.2]) ++ (pairFromEnd pool).2)) := by
    rw [hall]
    simp [List.flatMap_append, flatMap_map_eq, Option.toList, List.flatMap_id]
  have hstep1 : ((((pairFromEnd pool).1.flatMap fun ab => [ab.1, ab.2]) ++
      (pairFromEnd pool).2)).Perm (others ++ (pairFromEnd group).2) :=
    (pairFromEnd_perm pool).trans hpperm
  have hstep3 : (others ++ (pairFromEnd group).2).Perm ((pairFromEnd group).2 ++ others) :=
    List.perm_append_comm
  have hstep4 : (allPairs.flatMap fun ab => ab.1 :: ab.2.toList).Perm
      (((pairFromEnd group).1.flatMap fun ab => [ab.1, ab.2]) ++
        ((pairFromEnd group).2 ++ others)) := by
    rw [h1]
    exact List.Perm.append_left _ (hstep1.trans hstep3)
  have hstep6 : ((((pairFromEnd group).1.flatMap fun ab => [ab.1, ab.2]) ++
      (pairFromEnd group).2) ++ others).Perm
      ((players.filter fun p => p.score == top) ++ others) :=
    List.Perm.append_right others ((pairFromEnd_perm group).trans hgperm)
  have hstep7 : ((players.filter fun p => p.score == top) ++ others).Perm
      ((players.filter fun p => p.score == top) ++
        (players.filter fun p => !(p.score == top))) :=
    List.Perm.append_left _ hoperm
  have hstep8 : ((players.filter fun p => p.score == top) ++
      (players.filter fun p => !(p.score == top))).Perm players :=
    List.filter_append_perm _ players
  have hperm : (allPairs.flatMap fun ab => ab.1 :: ab.2.toList).Perm players := by
    refine hstep4.trans ?_
    rw [← List.append_assoc]
    exact hstep6.trans (hstep7.trans hstep8)
  refine ⟨?_, ?_, ?_, ?_⟩
  · rw [List.length_map, List.enum_length, hall]
    simp only [List.length_append, List.length_map]
    have hg := pairFromEnd_length group
    have hp := pairFromEnd_length pool
    have hgl : group.length = (players.filter fun p => p.score == top).length :=
      hgperm.length_eq
    have hol : others.length = (players.filter fun p => !(p.score == top)).length :=
      hoperm.length_eq
    have hpl : pool.length = others.length + (pairFromEnd group).2.length := by
      rw [hpperm.length_eq, List.length_append]
    have hsplit : (players.filter fun p => p.score == top).length +
        (players.filter fun p => !(p.score == top)).length = players.length := by
      have := (List.filter_append_perm (fun p => p.score == top) players).length_eq
      simpa [List.length_append] using this
    omega
  · rw [hseat]; exact hperm
  · intro hnd p hp
    rw [hseat, hperm.count_eq]
    exact List.count_eq_one_of_mem hnd hp
  · rw [List.map_map]
    have hcomp : ((fun m : PairedMatch => m.table_no) ∘
        fun ie : Nat × (PlayerRow × Option PlayerRow) =>
          (⟨ie.1 + 1, ie.2.1, ie.2.2⟩ : PairedMatch)) = fun ie => ie.1 + 1 := rfl
    rw [hcomp, List.length_map, List.enum_length]
    exact enumFrom_map_table 0 allPairs

/-- Concrete roster used by the C3 witness. -/
def witnessPlayers5 : List PlayerRow :=
  [⟨1, 1, "a", 1, 3, none, none, none⟩, ⟨2, 2, "b", 1, 3, none, none, none⟩,
   ⟨3, 3, "c", 1, 3, none, none, none⟩, ⟨4, 4, "d", 1, 0, none, none, none⟩,
   ⟨5, 5, "e", 1, 0, none, none, none⟩]

/-- Witness for C3: five players (scores 3,3,3,0,0), identity shuffles: the
hypotheses hold and the pairing seats everyone exactly once on 3 tables. -/
theorem pairCore_complete_witness :
    (∀ l : List PlayerRow, (id l).Perm l) ∧
    2 ≤ (witnessPlayers5).length ∧
    ∃ ms, pairCore id id id witnessPlayers5 = some ms ∧
      ms.length = 3 ∧
      (pairedPlayers ms).Perm witnessPlayers5 ∧
      ms.map (fun m => m.table_no) = List.range' 1 ms.length := by
  refine ⟨fun l => List.Perm.refl l, by decide, ?_⟩
  obtain ⟨ms, hms, h2, h3, _h4, h5⟩ :=
    pairCore_complete id id id (fun l => List.Perm.refl l) (fun l => List.Perm.refl l)
      (fun l => List.Perm.refl l) witnessPlayers5 (by decide)
  exact ⟨ms, hms, by rw [h2]; decide, h3, h5⟩

/-! ## Standings (`compute_standings`, lines 1313-1409)

The Python code builds a dict `players[pid] = {Pts, wins, played, opp_pids}`
from the player rows (`Pts` is the cached `players.score` column), folds the
tournament's matches into it, derives `MWP/OppMW/SOS/SOSS/OPPT1`, sorts by
`(-Pts, -OppMW, name.lower())` (a stable sort) and emits ranked rows,
skipping inactive players when `active_only` while keeping their rank
positions. -/

/-- The per-player accumulator dict entry of `compute_standings`. -/
structure Stat where
  pid : Nat
  user_id : Nat
  name : String
  active : Nat
  Pts : ℚ
  wins : Nat
  played : Nat
  opp : Finset Nat
deriving DecidableEq

/-- Initial accumulator entry for one player row. -/
def initStat (p : PlayerRow) : Stat :=
  ⟨p.id, p.user_id, p.display_name, p.active, p.score, 0, 0, ∅⟩

/-- `pid in players` on the accumulator dict. -/
def hasPid (st : List Stat) (pid : Nat) : Bool :=
  st.any fun s => s.pid == pid

/-- Mutate the dict entry with key `pid` (a no-op if absent). -/
def bump (st : List Stat) (pid : Nat) (f : Stat → Stat) : List Stat :=
  st.map fun s => if s.pid = pid then f s else s

/-- `if pid in players: players[pid] = f(players[pid])`. -/
def condBump (st : List Stat) (pid : Nat) (f : Stat → Stat) : List Stat :=
  if hasPid st pid then bump st pid f else st

/-- `condBump` on an optional key (`None in players` is false). -/
def obump (st : List Stat) (o : Option Nat) (f : Stat → Stat) : List Stat :=
  match o with
  | some w => condBump st w f
  | none => st

/-- `is_bye = (p1 is None) ^ (p2 is None)`. -/
def isByeRow (m : MatchRow) : Bool :=
  m.p1_id.isNone != m.p2_id.isNone

/-- The bye-winner expression of `compute_standings`:
`p1 if (p1 is not None and (res=='p1' or res=='bye')) else (p2 if (p2 is not
None and (res=='p2' or res=='bye')) else None)`. -/
def byeWinnerOf (m : MatchRow) (res : MResult) : Option Nat :=
  if m.p1_id.isSome ∧ (res = .p1 ∨ res = .bye) then m.p1_id
  else if m.p2_id.isSome ∧ (res = .p2 ∨ res = .bye) then m.p2_id
  else none

/-- Folding one match row into the accumulator dict (the loop body of
`compute_standings`, lines 1352-1368). -/
def applyMatch (st : List Stat) (m : MatchRow) : List Stat :=
  match m.result with
  | none => st
  | some res =>
    if isByeRow m then
      obump st (byeWinnerOf m res) fun s => { s with wins := s.wins + 1, played := s.played + 1 }
    else
      let st1 := obump st m.p1_id fun s => { s with played := s.played + 1 }
      let st2 := obump st1 m.p2_id fun s => { s with played := s.played + 1 }
      let st3 := obump st2 m.winner_player_id fun s => { s with wins := s.wins + 1 }
      match m.p1_id, m.p2_id with
      | some a, some b =>
        if hasPid st3 a && hasPid st3 b then
          bump (bump st3 a fun s => { s with opp := insert b s.opp }) b
            fun s => { s with opp := insert a s.opp }
        else st3
      | _, _ => st3

/-- The fully folded accumulator dict. -/
def statsOf (players : List PlayerRow) (ms : List MatchRow) : List Stat :=
  ms.foldl applyMatch (players.map initStat)

/-- Specification-side win credit of a match for a player: for a bye row the
computed bye winner, otherwise the stored `winner_player_id`. -/
def winContrib (m : MatchRow) (pid : Nat) : Nat :=
  match m.result with
  | none => 0
  | some res =>
    if isByeRow m then (if byeWinnerOf m res = some pid then 1 else 0)
    else if m.winner_player_id = some pid then 1 else 0

/-- Specification-side played credit of a match for a player (a bye counts
one played game for its winner; a real match one per seat). -/
def playedContrib (m : MatchRow) (pid : Nat) : Nat :=
  match m.result with
  | none => 0
  | some res =>
    if isByeRow m then (if byeWinnerOf m res = some pid then 1 else 0)
    else (if m.p1_id = some pid then 1 else 0) + (if m.p2_id = some pid then 1 else 0)

/-- Total wins a player accumulates over a match list. -/
def winCount (ms : List MatchRow) (pid : Nat) : Nat :=
  (ms.map fun m => winContrib m pid).sum

/-- Total played games a player accumulates over a match list. -/
def playedCount (ms : List MatchRow) (pid : Nat) : Nat :=
  (ms.map fun m => playedContrib m pid).sum

/-- Opponents a single match contributes to a player's opponent set: only a
reported non-bye match between two dict keys contributes. -/
def matchOppContrib (pids : List Nat) (m : MatchRow) (pid : Nat) : Finset Nat :=
  match m.result with
  | none => ∅
  | some _ =>
    if isByeRow m then ∅
    else
      match m.p1_id, m.p2_id with
      | some a, some b =>
        if a ∈ pids ∧ b ∈ pids then
          (if pid = a then {b} else ∅) ∪ (if pid = b then {a} else ∅)
        else ∅
      | _, _ => ∅

/-- A player's accumulated opponent set over a match list. -/
def oppAccum (pids : List Nat) (ms : List MatchRow) (pid : Nat) : Finset Nat :=
  ms.foldr (fun m acc => matchOppContrib pids m pid ∪ acc) ∅

/-- The per-match update applied to one dict entry. -/
def rowUpd (pids : List Nat) (m : MatchRow) (s : Stat) : Stat :=
  { s with wins := s.wins + winContrib m s.pid,
           played := s.played + playedContrib m s.pid,
           opp := s.opp ∪ matchOppContrib pids m s.pid }

/-- The fully accumulated dict entry of one player. -/
def statRow (players : List PlayerRow) (ms : List MatchRow) (p : PlayerRow) : Stat :=
  ⟨p.id, p.user_id, p.display_name, p.active, p.score,
   winCount ms p.id, playedCount ms p.id, oppAccum (players.map fun q => q.id) ms p.id⟩

theorem hasPid_iff (st : List Stat) (w : Nat) :
    hasPid st w = true ↔ w ∈ st.map fun s => s.pid := by
  unfold hasPid
  rw [List.any_eq_true]
  constructor
  · rintro ⟨s, hs, hb⟩
    exact List.mem_map.mpr ⟨s, hs, beq_iff_eq.mp hb⟩
  · intro h
    rcases List.mem_map.mp h with ⟨s, hs, he⟩
    exact ⟨s, hs, beq_iff_eq.mpr he⟩

theorem condBump_eq_map (st : List Stat) (w : Nat) (f : Stat → Stat) :
    condBump st w f = st.map fun s => if s.pid = w then f s else s := by
  unfold condBump bump
  by_cases h : hasPid st w = true
  · rw [if_pos h]
  · rw [if_neg h]
    have hid : ∀ s ∈ st, s = (if s.pid = w then f s else s) := by
      intro s hs
      rw [if_neg]
      intro he
      exact h ((hasPid_iff st w).mpr (List.mem_map.mpr ⟨s, hs, he⟩))
    calc st = st.map id := (List.map_id st).symm
      _ = st.map fun s => if s.pid = w then f s else s := List.map_congr_left fun s hs => hid s hs

theorem obump_eq_map (st : List Stat) (o : Option Nat) (f : Stat → Stat) :
    obump st o f = st.map fun s => if o = some s.pid then f s else s := by
  cases o with
  | none =>
    calc st = st.map id := (List.map_id st).symm
      _ = _ := List.map_congr_left fun s _ => by simp
  | some w =>
    rw [obump, condBump_eq_map]
    refine List.map_congr_left fun s _ => ?_
    by_cases h : s.pid = w
    · simp [h]
    · rw [if_neg h, if_neg fun he => h (Option.some_inj.mp he).symm]

theorem map_pid_obump (st : List Stat) (o : Option Nat) (f : Stat → Stat)
    (hf : ∀ s, (f s).pid = s.pid) :
    ((obump st o f).map fun s => s.pid) = st.map fun s => s.pid := by
  rw [obump_eq_map, List.map_map]
  refine List.map_congr_left fun s _ => ?_
  by_cases h : o = some s.pid <;> simp [h, hf]

theorem hasPid_eq_of_map_pid {st st' : List Stat}
    (h : (st'.map fun s => s.pid) = st.map fun s => s.pid) (w : Nat) :
    hasPid st' w = hasPid st w := by
  rcases hb : hasPid st w with _ | _
  · rcases hb' : hasPid st' w with _ | _
    · rfl
    · exact absurd ((hasPid_iff st w).mpr (h ▸ (hasPid_iff st' w).mp hb')) (by rw [hb]; simp)
  · exact (hasPid_iff st' w).mpr (h ▸ (hasPid_iff st w).mp hb)

theorem rowUpd_result_none (pids : List Nat) (m : MatchRow) (h : m.result = none) (s : Stat) :
    rowUpd pids m s = s := by
  cases s
  simp [rowUpd, winContrib, playedContrib, matchOppContrib, h]

theorem applyMatch_nonbye_st3 (st : List Stat) (m : MatchRow) :
    (obump (obump (obump st m.p1_id fun s => { s with played := s.played + 1 })
        m.p2_id fun s => { s with played := s.played + 1 })
        m.winner_player_id fun s => { s with wins := s.wins + 1 }) =
      st.map fun s =>
        { s with
          wins := s.wins + (if m.winner_player_id = some s.pid then 1 else 0),
          played := s.played + ((if m.p1_id = some s.pid then 1 else 0) +
            (if m.p2_id = some s.pid then 1 else 0)) } := by
  rw [obump_eq_map, obump_eq_map, obump_eq_map, List.map_map, List.map_map]
  refine List.map_congr_left fun s _ => ?_
  by_cases h1 : m.p1_id = some s.pid <;> by_cases h2 : m.p2_id = some s.pid <;>
    by_cases hw : m.winner_player_id = some s.pid <;>
      · cases s
        simp [h1, h2, hw, Function.comp]

theorem applyMatch_eq_map (st : List Stat) (m : MatchRow) :
    applyMatch st m = st.map (rowUpd (st.map fun s => s.pid) m) := by
  rcases hres : m.result with _ | res
  · rw [applyMatch.eq_def, hres]
    exact ((List.map_congr_left fun s _ => rowUpd_result_none _ m hres s).trans
      (List.map_id st)).symm
  rcases hbye : isByeRow m with _ | _
  · -- non-bye branch
    rw [applyMatch.eq_def, hres]
    simp only [hbye, Bool.false_eq_true, if_false]
    rw [applyMatch_nonbye_st3 st m]
    have hpid3 : ((st.map fun s =>
        { s with
          wins := s.wins + (if m.winner_player_id = some s.pid then 1 else 0),
          played := s.played + ((if m.p1_id = some s.pid then 1 else 0) +
            (if m.p2_id = some s.pid then 1 else 0)) }).map fun s => s.pid) =
        st.map fun s => s.pid := by
      rw [List.map_map]
      exact List.map_congr_left fun s _ => rfl
    rcases hp1 : m.p1_id with _ | a <;> rcases hp2 : m.p2_id with _ | b
    · refine List.map_congr_left fun s _ => ?_
      by_cases hw : m.winner_player_id = some s.pid <;>
        · cases s
          simp [rowUpd, winContrib, playedContrib, matchOppContrib, hres, hbye, hp1, hp2, hw]
    · refine List.map_congr_left fun s _ => ?_
      by_cases hw : m.winner_player_id = some s.pid <;> by_cases h2 : b = s.pid <;>
        · cases s
          simp [rowUpd, winContrib, playedContrib, matchOppContrib, hres, hbye, hp1, hp2, hw, h2]
    · refine List.map_congr_left fun s _ => ?_
      by_cases hw : m.winner_player_id = some s.pid <;> by_cases h1 : a = s.pid <;>
        · cases s
          simp [rowUpd, winContrib, playedContrib, matchOppContrib, hres, hbye, hp1, hp2, hw, h1]
    · simp only [hp1, hp2] at hpid3
      simp only [hasPid_eq_of_map_pid hpid3 a, hasPid_eq_of_map_pid hpid3 b]
      by_cases hga : hasPid st a = true <;> by_cases hgb : hasPid st b = true
      · have hmem : a ∈ (st.map fun s => s.pid) ∧ b ∈ (st.map fun s => s.pid) :=
          ⟨(hasPid_iff st a).mp hga, (hasPid_iff st b).mp hgb⟩
        rw [hga, hgb]
        simp only [Bool.and_self, if_true, bump, List.map_map, List.map_map]
        refine List.map_congr_left fun s _ => ?_
        by_cases hw : m.winner_player_id = some s.pid <;> by_cases h1 : s.pid = a <;>
          by_cases h2 : s.pid = b <;>
            · cases s
              simp only at h1 h2
              rcases eq_or_ne a b with hab | hab
              · subst hab
                simp [rowUpd, winContrib, playedContrib, matchOppContrib, hres, hbye,
                  hp1, hp2, hw, h1, h2, hmem, Function.comp, Finset.insert_eq]
                try (apply Finset.ext; intro q; simp; tauto)
              · simp [rowUpd, winContrib, playedContrib, matchOppContrib, hres, hbye,
                  hp1, hp2, hw, h1, h2, hab, Ne.symm hab, hmem, Function.comp, Finset.insert_eq]
                try (apply Finset.ext; intro q; simp; tauto)
      all_goals
        have hmem : ¬ (a ∈ (st.map fun s => s.pid) ∧ b ∈ (st.map fun s => s.pid)) := by
          rw [← hasPid_iff, ← hasPid_iff]
          simp_all
        simp only [List.mem_map] at hmem
      all_goals
        simp only [hga, hgb, Bool.and_false, Bool.false_and, Bool.and_true, Bool.true_and,
          Bool.false_eq_true, if_false]
        refine List.map_congr_left fun s _ => ?_
        by_cases hw : m.winner_player_id = some s.pid <;>
          · cases s
            simp [rowUpd, winContrib, playedContrib, matchOppContrib, hres, hbye,
              hp1, hp2, hw, hmem]
  · -- bye branch
    rw [applyMatch.eq_def, hres]
    simp only [hbye, if_true]
    rw [obump_eq_map]
    refine List.map_congr_left fun s _ => ?_
    by_cases hw : byeWinnerOf m res = some s.pid <;>
      · cases s
        simp [rowUpd, winContrib, playedContrib, matchOppContrib, hres, hbye, hw]

theorem winCount_cons (m : MatchRow) (ms : List MatchRow) (pid : Nat) :
    winCount (m :: ms) pid = winContrib m pid + winCount ms pid := by
  simp [winCount]

theorem playedCount_cons (m : MatchRow) (ms : List MatchRow) (pid : Nat) :
    playedCount (m :: ms) pid = playedContrib m pid + playedCount ms pid := by
  simp [playedCount]

theorem foldl_applyMatch_eq_map :
    ∀ (ms : List MatchRow) (st : List Stat),
      ms.foldl applyMatch st = st.map fun s =>
        { s with wins := s.wins + winCount ms s.pid,
                 played := s.played + playedCount ms s.pid,
                 opp := s.opp ∪ oppAccum (st.map fun x => x.pid) ms s.pid }
  | [], st => by
    refine Eq.symm ((List.map_congr_left fun s _ => ?_).trans (List.map_id st))
    cases s
    simp [winCount, playedCount, oppAccum]
  | m :: ms, st => by
    have hpid : ((st.map (rowUpd (st.map fun s => s.pid) m)).map fun s => s.pid) =
        st.map fun s => s.pid := by
      rw [List.map_map]
      exact List.map_congr_left fun s _ => rfl
    have hrec := foldl_applyMatch_eq_map ms (st.map (rowUpd (st.map fun s => s.pid) m))
    rw [hpid] at hrec
    calc (m :: ms).foldl applyMatch st = ms.foldl applyMatch (applyMatch st m) := rfl
      _ = ms.foldl applyMatch (st.map (rowUpd (st.map fun s => s.pid) m)) := by
          rw [applyMatch_eq_map]
      _ = _ := by
          rw [hrec, List.map_map]
          refine List.map_congr_left fun s _ => ?_
          cases s
          simp [rowUpd, winCount_cons, playedCount_cons, oppAccum, Finset.union_assoc,
            Nat.add_assoc]

theorem statsOf_eq_map (players : List PlayerRow) (ms : List MatchRow) :
    statsOf players ms = players.map (statRow players ms) := by
  unfold statsOf
  rw [foldl_applyMatch_eq_map]
  have hpids : ((players.map initStat).map fun x => x.pid) = players.map fun q => q.id := by
    rw [List.map_map]
    exact List.map_congr_left fun p _ => rfl
  rw [hpids, List.map_map]
  refine List.map_congr_left fun p _ => ?_
  simp [initStat, statRow]

/-- `wins / played` for a dict entry (`0.0` with no games), line 1371. -/
def mwpOf (s : Stat) : ℚ :=
  if 0 < s.played then (s.wins : ℚ) / (s.played : ℚ) else 0

/-- Dict lookup `players[pid]`. -/
def lookupStat (st : List Stat) (pid : Nat) : Option Stat :=
  st.find? fun s => s.pid == pid

/-- `_pts(pid)`: the entry's cached points, `0.0` if absent. -/
def ptsL (st : List Stat) (pid : Nat) : ℚ :=
  match lookupStat st pid with
  | some s => s.Pts
  | none => 0

/-- `_mwp(pid)`: the entry's match-win percentage, `0.0` if absent. -/
def mwpL (st : List Stat) (pid : Nat) : ℚ :=
  match lookupStat st pid with
  | some s => mwpOf s
  | none => 0

/-- The entry's opponent set, `∅` if absent. -/
def oppL (st : List Stat) (pid : Nat) : Finset Nat :=
  match lookupStat st pid with
  | some s => s.opp
  | none => ∅

/-- `opps = [players[op] for op in p["opp_pids"] if op in players]`
(as the set of pids). -/
def oppsOf (st : List Stat) (s : Stat) : Finset Nat :=
  s.opp.filter fun q => hasPid st q = true

/-- `OppMW`: mean of the real opponents' MWP (0 with no opponents). -/
def oppMWOf (st : List Stat) (s : Stat) : ℚ :=
  let o := oppsOf st s
  if 0 < o.card then (∑ q ∈ o, mwpL st q) / (o.card : ℚ) else 0

/-- `SOS`: sum of the real opponents' points. -/
def sosOf (st : List Stat) (s : Stat) : ℚ :=
  ∑ q ∈ oppsOf st s, ptsL st q

/-- `SOSS`: sum over each opponent of that opponent's own opponents' points,
skipping the player themselves. -/
def sossOf (st : List Stat) (s : Stat) : ℚ :=
  ∑ q ∈ oppsOf st s, ∑ r ∈ (oppL st q).erase s.pid, ptsL st r

/-- `OPPT1 = 0.26123 + 0.004312*MP - 0.007638*SOS + 0.003810*SOSS +
0.23119*OppMW` (line 1387). -/
def oppt1Of (st : List Stat) (s : Stat) : ℚ :=
  0.26123 + 0.004312 * s.Pts - 0.007638 * sosOf st s + 0.003810 * sossOf st s +
    0.23119 * oppMWOf st s

/-- A dict entry together with its derived columns. -/
structure EStat where
  stat : Stat
  MWP : ℚ
  OppMW : ℚ
  SOS : ℚ
  SOSS : ℚ
  OPPT1 : ℚ
deriving DecidableEq

/-- Attach the derived columns to every entry (lines 1370-1387). -/
def enrich (st : List Stat) : List EStat :=
  st.map fun s => ⟨s, mwpOf s, oppMWOf st s, sosOf st s, sossOf st s, oppt1Of st s⟩

/-- Python's `str.lower()`, modelled per character. -/
def lowerName (s : String) : List Char := s.data.map Char.toLower

/-- Python's `<` on strings: code-point lexicographic comparison of the
character sequences (a proper prefix is smaller). -/
def lexLt : List Char → List Char → Prop
  | [], [] => False
  | [], _ :: _ => True
  | _ :: _, [] => False
  | a :: as, b :: bs => a < b ∨ (a = b ∧ lexLt as bs)

instance lexLt.decidable : DecidableRel lexLt := fun a b => by
  induction a generalizing b with
  | nil => cases b <;> · unfold lexLt; infer_instance
  | cons x xs ih =>
    cases b with
    | nil => unfold lexLt; infer_instance
    | cons y ys =>
      unfold lexLt
      exact @instDecidableOr _ _ _ (@instDecidableAnd _ _ _ (ih ys))

/-- The sort order of `compute_standings`: ascending in the key
`(-Pts, -OppMW, name.lower())`, i.e. descending points, then descending
OppMW, then ascending case-insensitive name. -/
def standLe (a b : EStat) : Prop :=
  b.stat.Pts < a.stat.Pts ∨ (b.stat.Pts = a.stat.Pts ∧
    (b.OppMW < a.OppMW ∨ (b.OppMW = a.OppMW ∧
      ¬ lexLt (lowerName b.stat.name) (lowerName a.stat.name))))

instance standLe.decidable : DecidableRel standLe := fun a b => by
  unfold standLe
  infer_instance

/-- One row of the list returned by `compute_standings` (the display
rounding of the Python code is omitted; `rank` is the 1-based position in
the full sorted order, with inactive players keeping their slot). -/
structure StandingRow where
  rank : Nat
  pid : Nat
  name : String
  Pts : ℚ
  MWP : ℚ
  OppMW : ℚ
  OPPT1 : ℚ
deriving DecidableEq

/-- `SwissAll.compute_standings` (lines 1313-1409) on one tournament's player
and match rows: build the accumulator dict, derive the columns, stable-sort
by `(-Pts, -OppMW, name.lower())`, enumerate ranks from 1 and emit the rows,
skipping inactive players when `active_only` holds. -/
def compute_standings (players : List PlayerRow) (ms : List MatchRow)
    (active_only : Bool) : List StandingRow :=
  let st := statsOf players ms
  let ordered := List.insertionSort standLe (enrich st)
  ordered.enum.filterMap fun ie =>
    if active_only && ie.2.stat.active == 0 then none
    else some ⟨ie.1 + 1, ie.2.stat.pid, ie.2.stat.name, ie.2.stat.Pts, ie.2.MWP,
      ie.2.OppMW, ie.2.OPPT1⟩

theorem lexLt_irrefl : ∀ l : List Char, ¬ lexLt l l
  | [] => by simp [lexLt]
  | a :: as => by
    simp [lexLt, lt_irrefl]
    exact lexLt_irrefl as

theorem lexLt_trans : ∀ (l1 l2 l3 : List Char), lexLt l1 l2 → lexLt l2 l3 → lexLt l1 l3
  | [], [], _, h12, _ => absurd h12 (by simp [lexLt])
  | [], _ :: _, [], _, h23 => absurd h23 (by simp [lexLt])
  | [], _ :: _, _ :: _, _, _ => by simp [lexLt]
  | _ :: _, [], _, h12, _ => absurd h12 (by simp [lexLt])
  | _ :: _, _ :: _, [], _, h23 => absurd h23 (by simp [lexLt])
  | a :: as, b :: bs, c :: cs, h12, h23 => by
    simp only [lexLt] at h12 h23 ⊢
    rcases h12 with h | ⟨he, h⟩ <;> rcases h23 with g | ⟨hge, g⟩
    · exact Or.inl (lt_trans h g)
    · exact Or.inl (hge ▸ h)
    · exact Or.inl (he ▸ g)
    · exact Or.inr ⟨he.trans hge, lexLt_trans as bs cs h g⟩

theorem lexLt_asymm {l1 l2 : List Char} (h : lexLt l1 l2) : ¬ lexLt l2 l1 :=
  fun g => lexLt_irrefl l1 (lexLt_trans l1 l2 l1 h g)

theorem lexLt_trichotomy : ∀ (l1 l2 : List Char), lexLt l1 l2 ∨ l1 = l2 ∨ lexLt l2 l1
  | [], [] => Or.inr (Or.inl rfl)
  | [], _ :: _ => Or.inl trivial
  | _ :: _, [] => Or.inr (Or.inr trivial)
  | a :: as, b :: bs => by
    rcases lt_trichotomy a b with h | h | h
    · exact Or.inl (Or.inl h)
    · rcases lexLt_trichotomy as bs with g | g | g
      · exact Or.inl (Or.inr ⟨h, g⟩)
      · exact Or.inr (Or.inl (by rw [h, g]))
      · exact Or.inr (Or.inr (Or.inr ⟨h.symm, g⟩))
    · exact Or.inr (Or.inr (Or.inl h))

theorem standLe_total (a b : EStat) : standLe a b ∨ standLe b a := by
  unfold standLe
  rcases lt_trichotomy a.stat.Pts b.stat.Pts with h | h | h
  · exact Or.inr (Or.inl h)
  · rcases lt_trichotomy a.OppMW b.OppMW with g | g | g
    · exact Or.inr (Or.inr ⟨h, Or.inl g⟩)
    · rcases lexLt_trichotomy (lowerName a.stat.name) (lowerName b.stat.name) with k | k | k
      · exact Or.inl (Or.inr ⟨h.symm, Or.inr ⟨g.symm, lexLt_asymm k⟩⟩)
      · exact Or.inl (Or.inr ⟨h.symm, Or.inr ⟨g.symm, k ▸ lexLt_irrefl _⟩⟩)
      · exact Or.inr (Or.inr ⟨h, Or.inr ⟨g, lexLt_asymm k⟩⟩)
    · exact Or.inl (Or.inr ⟨h.symm, Or.inl g⟩)
  · exact Or.inl (Or.inl h)

theorem nameLe_trans {n1 n2 n3 : List Char}
    (h12 : ¬ lexLt n2 n1) (h23 : ¬ lexLt n3 n2) : ¬ lexLt n3 n1 := by
  intro h
  rcases lexLt_trichotomy n1 n2 with k | k | k
  · exact h23 (lexLt_trans n3 n1 n2 h k)
  · exact h23 (k ▸ h)
  · exact h12 k

theorem standLe_trans (a b c : EStat) : standLe a b → standLe b c → standLe a c := by
  unfold standLe
  rintro (h | ⟨he, h⟩) <;> rintro (g | ⟨hge, g⟩)
  · exact Or.inl (lt_trans g h)
  · exact Or.inl (hge ▸ h)
  · exact Or.inl (he ▸ g)
  · refine Or.inr ⟨hge.trans he, ?_⟩
    rcases h with h | ⟨he2, h⟩ <;> rcases g with g | ⟨hge2, g⟩
    · exact Or.inl (lt_trans g h)
    · exact Or.inl (hge2 ▸ h)
    · exact Or.inl (he2 ▸ g)
    · exact Or.inr ⟨hge2.trans he2, nameLe_trans h g⟩

instance : IsTotal EStat standLe := ⟨standLe_total⟩

instance : IsTrans EStat standLe := ⟨standLe_trans⟩

/-- The key order of the claim, restated on output rows. -/
def rowKeyLe (a b : StandingRow) : Prop :=
  b.Pts < a.Pts ∨ (b.Pts = a.Pts ∧ (b.OppMW < a.OppMW ∨ (b.OppMW = a.OppMW ∧
    ¬ lexLt (lowerName b.name) (lowerName a.name))))

/-- Strict version of the key order on output rows. -/
def rowKeyLt (a b : StandingRow) : Prop :=
  b.Pts < a.Pts ∨ (b.Pts = a.Pts ∧ (b.OppMW < a.OppMW ∨ (b.OppMW = a.OppMW ∧
    lexLt (lowerName a.name) (lowerName b.name))))

instance rowKeyLt.decidable : DecidableRel rowKeyLt := fun a b => by
  unfold rowKeyLt
  infer_instance

theorem filterMap_if {α β : Type _} (c : α → Bool) (g : α → β) :
    ∀ l : List α,
      (l.filterMap fun x => if c x then none else some (g x)) =
        (l.filter fun x => !(c x)).map g
  | [] => rfl
  | a :: l => by
    rcases hc : c a with _ | _ <;>
      simp [List.filterMap_cons, List.filter_cons, hc, filterMap_if c g l]

theorem countP_enumFrom {α : Type _} (p : α → Bool) :
    ∀ (n : Nat) (l : List α), ((List.enumFrom n l).countP fun x => p x.2) = l.countP p
  | _, [] => rfl
  | n, a :: l => by
    rcases hp : p a with _ | _ <;>
      simp [List.enumFrom_cons, List.countP_cons, hp, countP_enumFrom p (n + 1) l]

theorem mem_compute_standings {players : List PlayerRow} {ms : List MatchRow}
    {ao : Bool} {row : StandingRow} (h : row ∈ compute_standings players ms ao) :
    ∃ e ∈ enrich (statsOf players ms),
      row.pid = e.stat.pid ∧ row.name = e.stat.name ∧ row.Pts = e.stat.Pts ∧
      row.MWP = e.MWP ∧ row.OppMW = e.OppMW ∧ row.OPPT1 = e.OPPT1 := by
  unfold compute_standings at h
  rcases List.mem_filterMap.mp h with ⟨ie, hmem, heq⟩
  rcases hc : (ao && ie.2.stat.active == 0) with _ | _
  · rw [hc] at heq
    simp only [Bool.false_eq_true, if_false, Option.some_inj] at heq
    have h2 : ie.2 ∈ List.insertionSort standLe (enrich (statsOf players ms)) := by
      have h4 := List.mem_map_of_mem Prod.snd hmem
      rw [List.enum_map_snd] at h4
      exact h4
    have h3 : ie.2 ∈ enrich (statsOf players ms) :=
      (List.perm_insertionSort standLe _).mem_iff.mp h2
    exact ⟨ie.2, h3, by rw [← heq]; exact ⟨rfl, rfl, rfl, rfl, rfl, rfl⟩⟩
  · rw [hc] at heq
    simp at heq

theorem compute_standings_sorted (players : List PlayerRow) (ms : List MatchRow)
    (ao : Bool) : (compute_standings players ms ao).Pairwise rowKeyLe := by
  unfold compute_standings
  set ordered := List.insertionSort standLe (enrich (statsOf players ms)) with hord
  have hsorted : ordered.Pairwise standLe := List.sorted_insertionSort standLe _
  have henum : ordered.enum.Pairwise fun x y => standLe x.2 y.2 := by
    have := (List.pairwise_map (f := Prod.snd)
      (R := standLe) (l := ordered.enum)).symm.mpr ?_
    · exact this
    · rw [List.enum_map_snd]
      exact hsorted
  rw [filterMap_if]
  refine List.Pairwise.map _ ?_ (henum.sublist (List.filter_sublist _))
  intro x y hxy
  exact hxy

/-- With `active_only`, the number of standings rows is the number of active
players. -/
theorem compute_standings_length_active (players : List PlayerRow) (ms : List MatchRow) :
    (compute_standings players ms true).length =
      players.countP fun p => !(p.active == 0) := by
  unfold compute_standings
  rw [filterMap_if, List.length_map, ← List.countP_eq_length_filter]
  have h1 : ∀ l : List EStat,
      (l.enum.countP fun ie => !(true && ie.2.stat.active == 0)) =
        l.countP fun e => !(e.stat.active == 0) := by
    intro l
    have h2 : (l.countP fun e => !(e.stat.active == 0)) =
        ((l.enum.map Prod.snd).countP fun e => !(e.stat.active == 0)) := by
      rw [List.enum_map_snd]
    rw [h2, List.countP_map]
    exact List.countP_congr fun ie _ => by simp [Function.comp]
  rw [h1]
  rw [(List.perm_insertionSort standLe (enrich (statsOf players ms))).countP_eq]
  unfold enrich
  rw [List.countP_map, statsOf_eq_map, List.countP_map]
  exact List.countP_congr fun p _ => by simp [statRow, Function.comp]

theorem mem_oppAccum (pids : List Nat) (pid q : Nat) :
    ∀ ms : List MatchRow,
      (q ∈ oppAccum pids ms pid ↔ ∃ m ∈ ms, q ∈ matchOppContrib pids m pid)
  | [] => by simp [oppAccum]
  | m :: ms => by
    have ih := mem_oppAccum pids pid q ms
    rw [show oppAccum pids (m :: ms) pid =
      matchOppContrib pids m pid ∪ oppAccum pids ms pid from rfl]
    rw [Finset.mem_union, ih]
    constructor
    · rintro (h | ⟨m2, hm2, hq⟩)
      · exact ⟨m, List.mem_cons_self m ms, h⟩
      · exact ⟨m2, List.mem_cons_of_mem m hm2, hq⟩
    · rintro ⟨m2, hm2, hq⟩
      rcases List.mem_cons.mp hm2 with h | h
      · exact Or.inl (h ▸ hq)
      · exact Or.inr ⟨m2, h, hq⟩

theorem mem_matchOppContrib {pids : List Nat} {m : MatchRow} {pid q : Nat} :
    q ∈ matchOppContrib pids m pid ↔
      m.result.isSome = true ∧ isByeRow m = false ∧
        ∃ a b, m.p1_id = some a ∧ m.p2_id = some b ∧ a ∈ pids ∧ b ∈ pids ∧
          ((pid = a ∧ q = b) ∨ (pid = b ∧ q = a)) := by
  unfold matchOppContrib
  rcases hres : m.result with _ | res
  · simp [hres]
  rcases hbye : isByeRow m with _ | _
  · rcases hp1 : m.p1_id with _ | a <;> rcases hp2 : m.p2_id with _ | b
    · simp [hres, hbye, hp1, hp2]
    · simp [hres, hbye, hp1, hp2]
    · simp [hres, hbye, hp1, hp2]
    · by_cases hm : a ∈ pids ∧ b ∈ pids
      · by_cases hpa : pid = a <;> by_cases hpb : pid = b <;>
          · rcases eq_or_ne a b with hab | hab
            · subst hab
              simp [hm, hm.1, hm.2, hpa, hpb]
              try tauto
            · simp [hm, hm.1, hm.2, hpa, hpb, hab, Ne.symm hab]
              try tauto
      · simp [hm]
        try tauto
  · constructor
    · intro hq
      simp at hq
    · rintro ⟨-, hbye2, -⟩
      cases hbye2

/-- A match in which `pid` and `q` really met: a reported non-bye match
seating both. -/
def realOppMatch (m : MatchRow) (pid q : Nat) : Bool :=
  m.result.isSome && !(isByeRow m) &&
    ((m.p1_id == some pid && m.p2_id == some q) ||
      (m.p2_id == some pid && m.p1_id == some q))

/-- The set of real opponents of `pid` that are registered players. -/
def realOpps (players : List PlayerRow) (ms : List MatchRow) (pid : Nat) : Finset Nat :=
  ((players.map fun p => p.id).toFinset).filter fun q =>
    (ms.any fun m => realOppMatch m pid q) = true

theorem oppAccum_eq_realOpps (players : List PlayerRow) (ms : List MatchRow) (pid : Nat)
    (hpid : pid ∈ players.map fun p => p.id) :
    oppAccum (players.map fun p => p.id) ms pid = realOpps players ms pid := by
  ext q
  rw [mem_oppAccum, realOpps, Finset.mem_filter, List.mem_toFinset, List.any_eq_true]
  constructor
  · rintro ⟨m, hm, hq⟩
    rcases mem_matchOppContrib.mp hq with ⟨hsome, hbye, a, b, ha, hb, hain, hbin,
      (⟨hpa, hqb⟩ | ⟨hpb, hqa⟩)⟩
    · refine ⟨hqb ▸ hbin, m, hm, ?_⟩
      unfold realOppMatch
      rw [ha, hb, hpa, hqb]
      simp [hsome, hbye]
    · refine ⟨hqa ▸ hain, m, hm, ?_⟩
      unfold realOppMatch
      rw [ha, hb, hpb, hqa]
      simp [hsome, hbye]
  · rintro ⟨hqin, m, hm, hmatch⟩
    refine ⟨m, hm, mem_matchOppContrib.mpr ?_⟩
    unfold realOppMatch at hmatch
    simp only [Bool.and_eq_true, Bool.or_eq_true, beq_iff_eq, Bool.not_eq_eq_eq_not,
      Bool.not_true] at hmatch
    rcases hmatch with ⟨⟨hsome, hbye⟩, (⟨h1, h2⟩ | ⟨h2, h1⟩)⟩
    · exact ⟨hsome, hbye, pid, q, h1, h2, hpid, hqin, Or.inl ⟨rfl, rfl⟩⟩
    · exact ⟨hsome, hbye, q, pid, h1, h2, hqin, hpid, Or.inr ⟨rfl, rfl⟩⟩

theorem find?_id_nodup :
    ∀ (players : List PlayerRow), (players.map fun p => p.id).Nodup →
      ∀ p ∈ players, players.find? (fun q => q.id == p.id) = some p
  | [], _, p, hp => absurd hp (List.not_mem_nil p)
  | r :: rest, hnd, p, hp => by
    rw [List.map_cons, List.nodup_cons] at hnd
    rcases List.mem_cons.mp hp with h | h
    · subst h
      rw [List.find?_cons_of_pos _ (by simp)]
    · have hne : (r.id == p.id) = false := by
        rw [beq_eq_false_iff_ne]
        intro he
        exact hnd.1 (he ▸ List.mem_map.mpr ⟨p, h, rfl⟩)
      rw [show List.find? (fun q => q.id == p.id) (r :: rest) =
        List.find? (fun q => q.id == p.id) rest by
          simp only [List.find?_cons, hne, cond_false]]
      exact find?_id_nodup rest hnd.2 p h

theorem find?_map_eq {α β : Type _} (f : α → β) (p : β → Bool) :
    ∀ l : List α, (l.map f).find? p = (l.find? fun x => p (f x)).map f
  | [] => rfl
  | a :: l => by
    rcases hp : p (f a) with _ | _ <;>
      simp [List.find?_cons, hp, find?_map_eq f p l]

theorem map_pid_statsOf (players : List PlayerRow) (ms : List MatchRow) :
    ((statsOf players ms).map fun s => s.pid) = players.map fun p => p.id := by
  rw [statsOf_eq_map, List.map_map]
  exact List.map_congr_left fun p _ => rfl

theorem lookupStat_statsOf (players : List PlayerRow) (ms : List MatchRow) (q : Nat) :
    lookupStat (statsOf players ms) q =
      (players.find? fun p => p.id == q).map (statRow players ms) := by
  rw [statsOf_eq_map]
  unfold lookupStat
  exact find?_map_eq (statRow players ms) (fun s => s.pid == q) players

/-- Specification-side match-win percentage of `pid` over a match history. -/
def mwpSpec (ms : List MatchRow) (pid : Nat) : ℚ :=
  if playedCount ms pid = 0 then 0
  else (winCount ms pid : ℚ) / (playedCount ms pid : ℚ)

/-- The cached score column of the player with id `pid` (0 if absent). -/
def scoreOf (players : List PlayerRow) (pid : Nat) : ℚ :=
  match players.find? fun p => p.id == pid with
  | some p => p.score
  | none => 0

theorem mwpOf_statRow (players : List PlayerRow) (ms : List MatchRow) (p : PlayerRow) :
    mwpOf (statRow players ms p) = mwpSpec ms p.id := by
  unfold mwpOf mwpSpec statRow
  rcases Nat.eq_zero_or_pos (playedCount ms p.id) with h | h
  · simp [h]
  · rw [if_pos h, if_neg (by omega)]

theorem ptsL_statsOf (players : List PlayerRow) (ms : List MatchRow) (q : Nat) :
    ptsL (statsOf players ms) q = scoreOf players q := by
  unfold ptsL scoreOf
  rw [lookupStat_statsOf]
  rcases hf : players.find? (fun p => p.id == q) with _ | pr <;> simp [hf, statRow]

theorem mwpL_statsOf (players : List PlayerRow) (ms : List MatchRow) (q : Nat)
    (hq : q ∈ players.map fun p => p.id) :
    mwpL (statsOf players ms) q = mwpSpec ms q := by
  unfold mwpL
  rw [lookupStat_statsOf]
  rcases hf : players.find? (fun p => p.id == q) with _ | pr
  · rcases List.mem_map.mp hq with ⟨p, hp, hpid⟩
    have : ¬ ∃ x ∈ players, (fun p : PlayerRow => p.id == q) x = true := by
      rw [← List.find?_isSome, hf]
      simp
    exact absurd ⟨p, hp, beq_iff_eq.mpr hpid⟩ this
  · have hbeq := List.find?_some hf
    have hid : pr.id = q := by simpa using hbeq
    rw [hf]
    simp only [Option.map_some']
    rw [mwpOf_statRow, hid]

theorem oppL_statsOf (players : List PlayerRow) (ms : List MatchRow) (q : Nat)
    (hq : q ∈ players.map fun p => p.id) :
    oppL (statsOf players ms) q = realOpps players ms q := by
  unfold oppL
  rw [lookupStat_statsOf]
  rcases hf : players.find? (fun p => p.id == q) with _ | pr
  · rcases List.mem_map.mp hq with ⟨p, hp, hpid⟩
    have : ¬ ∃ x ∈ players, (fun p : PlayerRow => p.id == q) x = true := by
      rw [← List.find?_isSome, hf]
      simp
    exact absurd ⟨p, hp, beq_iff_eq.mpr hpid⟩ this
  · have hbeq := List.find?_some hf
    have hid : pr.id = q := by simpa using hbeq
    rw [hf]
    simp only [Option.map_some']
    rw [show (statRow players ms pr).opp = oppAccum (players.map fun x => x.id) ms pr.id
      from rfl]
    rw [oppAccum_eq_realOpps players ms pr.id (hid ▸ hq), hid]

theorem realOpps_subset_ids (players : List PlayerRow) (ms : List MatchRow) (pid : Nat) :
    ∀ q ∈ realOpps players ms pid, q ∈ players.map fun p => p.id := by
  intro q hq
  unfold realOpps at hq
  exact List.mem_toFinset.mp (Finset.mem_filter.mp hq).1

theorem oppsOf_statRow (players : List PlayerRow) (ms : List MatchRow) (p : PlayerRow)
    (hp : p ∈ players) :
    oppsOf (statsOf players ms) (statRow players ms p) = realOpps players ms p.id := by
  unfold oppsOf
  rw [show (statRow players ms p).opp = oppAccum (players.map fun x => x.id) ms p.id
    from rfl]
  rw [oppAccum_eq_realOpps players ms p.id (List.mem_map.mpr ⟨p, hp, rfl⟩)]
  refine Finset.filter_true_of_mem ?_
  intro q hq
  rw [hasPid_iff, map_pid_statsOf]
  exact realOpps_subset_ids players ms p.id q hq

theorem mem_compute_standings_stat {players : List PlayerRow} {ms : List MatchRow}
    {ao : Bool} {row : StandingRow} (h : row ∈ compute_standings players ms ao) :
    ∃ p ∈ players, row.pid = p.id ∧ row.name = p.display_name ∧ row.Pts = p.score ∧
      row.MWP = mwpOf (statRow players ms p) ∧
      row.OppMW = oppMWOf (statsOf players ms) (statRow players ms p) ∧
      row.OPPT1 = oppt1Of (statsOf players ms) (statRow players ms p) := by
  rcases mem_compute_standings h with ⟨e, he, h1, h2, h3, h4, h5, h6⟩
  unfold enrich at he
  rcases List.mem_map.mp he with ⟨s, hs, hes⟩
  rw [statsOf_eq_map] at hs
  rcases List.mem_map.mp hs with ⟨p, hp, hsp⟩
  subst hsp
  subst hes
  exact ⟨p, hp, h1, h2, h3, h4, h5, h6⟩

/-- **C6.** Every standings row reports `MWP = wins / played` (0 with no
games, byes counting in both numerator and denominator per
`winCount`/`playedCount`) and `OppMW` = the arithmetic mean of the real
opponents' MWP (byes contribute no opponent; an empty opponent set gives 0). -/
theorem standings_mwp_oppmw (players : List PlayerRow) (ms : List MatchRow) (ao : Bool) :
    ∀ row ∈ compute_standings players ms ao,
      row.MWP = mwpSpec ms row.pid ∧
      row.OppMW = (if (realOpps players ms row.pid).card = 0 then 0
        else (∑ q ∈ realOpps players ms row.pid, mwpSpec ms q) /
          ((realOpps players ms row.pid).card : ℚ)) := by
  intro row hrow
  rcases mem_compute_standings_stat hrow with ⟨p, hp, hpid, -, -, hmwp, homw, -⟩
  constructor
  · rw [hmwp, mwpOf_statRow, hpid]
  · rw [homw, hpid]
    unfold oppMWOf
    rw [oppsOf_statRow players ms p hp]
    have hsum : (∑ q ∈ realOpps players ms p.id, mwpL (statsOf players ms) q) =
        ∑ q ∈ realOpps players ms p.id, mwpSpec ms q :=
      Finset.sum_congr rfl fun q hq =>
        mwpL_statsOf players ms q (realOpps_subset_ids players ms p.id q hq)
    rcases Nat.eq_zero_or_pos (realOpps players ms p.id).card with h | h
    · simp [h]
    · rw [if_pos h, if_neg (by omega), hsum]

/-- **C8.** Every standings row reports the composite tie-break
`OPPT1 = 0.26123 + 0.004312*Pts − 0.007638*SOS + 0.003810*SOSS +
0.23119*OppMW`, where SOS sums the real opponents' cached points and SOSS
sums, over each opponent, that opponent's own real opponents' points with
the original player excluded. -/
theorem standings_oppt1_formula (players : List PlayerRow) (ms : List MatchRow) (ao : Bool) :
    ∀ row ∈ compute_standings players ms ao,
      row.OPPT1 = 0.26123 + 0.004312 * row.Pts -
        0.007638 * (∑ q ∈ realOpps players ms row.pid, scoreOf players q) +
        0.003810 * (∑ q ∈ realOpps players ms row.pid,
          ∑ r ∈ (realOpps players ms q).erase row.pid, scoreOf players r) +
        0.23119 * row.OppMW := by
  intro row hrow
  rcases mem_compute_standings_stat hrow with ⟨p, hp, hpid, -, hpts, -, homw, hopt⟩
  have hsos : sosOf (statsOf players ms) (statRow players ms p) =
      ∑ q ∈ realOpps players ms p.id, scoreOf players q := by
    unfold sosOf
    rw [oppsOf_statRow players ms p hp]
    exact Finset.sum_congr rfl fun q _ => ptsL_statsOf players ms q
  have hsoss : sossOf (statsOf players ms) (statRow players ms p) =
      ∑ q ∈ realOpps players ms p.id,
        ∑ r ∈ (realOpps players ms q).erase p.id, scoreOf players r := by
    unfold sossOf
    rw [oppsOf_statRow players ms p hp]
    refine Finset.sum_congr rfl fun q hq => ?_
    rw [show (statRow players ms p).pid = p.id from rfl]
    rw [oppL_statsOf players ms q (realOpps_subset_ids players ms p.id q hq)]
    exact Finset.sum_congr rfl fun r _ => ptsL_statsOf players ms r
  rw [hopt]
  unfold oppt1Of
  rw [hsos, hsoss, homw, hpid, hpts]
  rfl

theorem pairwise_names_compute_standings {S : String → String → Prop}
    (hsymm : ∀ {x y : String}, S x y → S y x)
    (players : List PlayerRow) (ms : List MatchRow) (ao : Bool)
    (hS : players.Pairwise fun p q => S p.display_name q.display_name) :
    (compute_standings players ms ao).Pairwise fun r1 r2 => S r1.name r2.name := by
  have h1 : (statsOf players ms).Pairwise fun s1 s2 => S s1.name s2.name := by
    rw [statsOf_eq_map]
    exact (List.pairwise_map).mpr (hS.imp fun h => h)
  have h2 : (enrich (statsOf players ms)).Pairwise fun e1 e2 => S e1.stat.name e2.stat.name := by
    unfold enrich
    exact (List.pairwise_map).mpr (h1.imp fun h => h)
  have h3 : (List.insertionSort standLe (enrich (statsOf players ms))).Pairwise
      fun e1 e2 => S e1.stat.name e2.stat.name :=
    ((List.perm_insertionSort standLe _).pairwise_iff fun h => hsymm h).mpr h2
  have h4 : ((List.insertionSort standLe (enrich (statsOf players ms))).enum).Pairwise
      fun x y => S x.2.stat.name y.2.stat.name := by
    have h5 := (List.pairwise_map (f := Prod.snd)
      (R := fun e1 e2 : EStat => S e1.stat.name e2.stat.name)
      (l := (List.insertionSort standLe (enrich (statsOf players ms))).enum))
    rw [List.enum_map_snd] at h5
    exact h5.symm.mpr h3
  unfold compute_standings
  rw [filterMap_if]
  exact List.Pairwise.map _ (fun x y h => h) (h4.sublist (List.filter_sublist _))

/-- **C7 (amended).** The standings rows are ordered by descending points,
then descending OppMW, then ascending case-insensitive name; the ordering is
strict (no ties left to the stable sort) whenever the players' lowercased
names are pairwise distinct. -/
theorem standings_sorted_total (players : List PlayerRow) (ms : List MatchRow) (ao : Bool)
    (hnames : players.Pairwise fun p q =>
      lowerName p.display_name ≠ lowerName q.display_name) :
    (compute_standings players ms ao).Pairwise rowKeyLe ∧
    (compute_standings players ms ao).Pairwise rowKeyLt := by
  refine ⟨compute_standings_sorted players ms ao, ?_⟩
  have hd : (compute_standings players ms ao).Pairwise fun r1 r2 =>
      lowerName r1.name ≠ lowerName r2.name :=
    @pairwise_names_compute_standings (fun x y => lowerName x ≠ lowerName y)
      (fun h he => h he.symm) players ms ao hnames
  have hboth := (compute_standings_sorted players ms ao).and hd
  refine hboth.imp fun {r1 r2} h => ?_
  rcases h with ⟨hle, hne⟩
  rcases hle with h | ⟨hePts, h⟩
  · exact Or.inl h
  · refine Or.inr ⟨hePts, ?_⟩
    rcases h with h | ⟨heMW, h⟩
    · exact Or.inl h
    · refine Or.inr ⟨heMW, ?_⟩
      rcases lexLt_trichotomy (lowerName r1.name) (lowerName r2.name) with k | k | k
      · exact k
      · exact absurd k hne
      · exact absurd k h

/-! ## Score recomputation (`recompute_scores`, lines 488-500) -/

/-- Whether a match's stored terminal result awards its +3 to the player
`pid`, mirroring the branch structure of `update_score_for_match`. -/
def scoredBy (m : MatchRow) (pid : Nat) : Bool :=
  match m.result with
  | none => false
  | some .p1 => m.p1_id == some pid
  | some .p2 => m.p2_id == some pid
  | some .bye => (m.p1_id == some pid && m.p2_id.isNone) ||
      (m.p2_id == some pid && m.p1_id.isNone)

/-- The loop body of `recompute_scores`: skip unreported matches, else apply
`update_score_for_match`. -/
def applyScore (ps : List PlayerRow) (m : MatchRow) : List PlayerRow :=
  match m.result with
  | none => ps
  | some res => update_score_for_match ps m.p1_id m.p2_id res m.winner_player_id

theorem addScore_eq_map (ps : List PlayerRow) (a : Nat) (f : Nat → Bool)
    (hf : ∀ pid, f pid = true ↔ a = pid) :
    addScore ps a 3 = ps.map fun q =>
      { q with score := q.score + if f q.id then 3 else 0 } := by
  unfold addScore
  refine List.map_congr_left fun q _ => ?_
  by_cases h : q.id = a
  · rw [if_pos h, if_pos ((hf q.id).mpr h.symm)]
  · rw [if_neg h, if_neg fun hc => h ((hf q.id).mp hc).symm]
    cases q
    simp

theorem map_score_zero (ps : List PlayerRow) (f : Nat → Bool)
    (hf : ∀ pid, f pid = false) :
    ps = ps.map fun q => { q with score := q.score + if f q.id then 3 else 0 } := by
  refine Eq.symm ((List.map_congr_left fun q _ => ?_).trans (List.map_id ps))
  cases q
  simp [hf]

theorem applyScore_eq_map (ps : List PlayerRow) (m : MatchRow) :
    applyScore ps m = ps.map fun q =>
      { q with score := q.score + (if scoredBy m q.id then 3 else 0) } := by
  rcases hres : m.result with _ | res
  · rw [applyScore.eq_def, hres]
    exact map_score_zero ps _ fun pid => by simp [scoredBy, hres]
  · rw [applyScore.eq_def, hres]
    rcases res <;>
      rcases hp1 : m.p1_id with _ | a <;> rcases hp2 : m.p2_id with _ | b <;>
        · simp only [update_score_for_match.eq_def]
          first
          | exact map_score_zero ps _ fun pid => by simp [scoredBy, hres, hp1, hp2]
          | exact addScore_eq_map ps a _ fun pid => by simp [scoredBy, hres, hp1, hp2]
          | exact addScore_eq_map ps b _ fun pid => by simp [scoredBy, hres, hp1, hp2]

theorem foldl_applyScore_eq_map :
    ∀ (ms : List MatchRow) (ps : List PlayerRow),
      ms.foldl applyScore ps = ps.map fun q =>
        { q with score := q.score + 3 * ((ms.countP fun m => scoredBy m q.id : Nat) : ℚ) }
  | [], ps => by
    refine Eq.symm ((List.map_congr_left fun q _ => ?_).trans (List.map_id ps))
    cases q
    simp
  | m :: ms, ps => by
    calc (m :: ms).foldl applyScore ps = ms.foldl applyScore (applyScore ps m) := rfl
      _ = _ := by
        rw [applyScore_eq_map, foldl_applyScore_eq_map ms, List.map_map]
        refine List.map_congr_left fun q _ => ?_
        rcases hs : scoredBy m q.id with _ | _ <;>
          · cases q
            simp only [Function.comp]
            simp [List.countP_cons, hs, Nat.cast_add]
            try ring

/-! ## Tournament state machine (`cmd_next_round`, `cmd_make_top4`,
`add_player`) on the DB embedding -/

/-- `fetch_players`: the tournament's players, restricted to `active=1` when
`active_only`. -/
def fetch_players (db : DB) (active_only : Bool) : List PlayerRow :=
  if active_only then db.players.filter fun p => p.active == 1 else db.players

/-- `current_round`: `SELECT ... ORDER BY round_no DESC LIMIT 1`. -/
def current_round (db : DB) : Option RoundRow :=
  db.rounds.foldl (fun acc r =>
    match acc with
    | none => some r
    | some a => if a.round_no < r.round_no then some r else some a) none

/-- `list_matches_round` (the `ORDER BY table_no` is irrelevant to the
properties proved here). -/
def list_matches_round (db : DB) (rid : Nat) : List MatchRow :=
  db.matchRows.filter fun m => m.round_id == rid

/-- `close_round`: `UPDATE rounds SET status='finished' WHERE id=?`. -/
def close_round (db : DB) (rid : Nat) : DB :=
  { db with rounds := db.rounds.map fun r =>
      if r.id = rid then { r with status := "finished" } else r }

/-- `SELECT COALESCE(MAX(round_no),0)+1` of `create_round`. -/
def nextRoundNo (db : DB) : Nat :=
  (db.rounds.foldl (fun acc r => max acc r.round_no) 0) + 1

/-- Fresh autoincrement id for a new round row. -/
def freshRoundId (db : DB) : Nat :=
  (db.rounds.foldl (fun acc r => max acc r.id) 0) + 1

/-- `create_round`: insert a new `ongoing` round with the next round number;
returns the new row's id. -/
def create_round (db : DB) : DB × Nat :=
  ({ db with rounds := db.rounds ++ [⟨freshRoundId db, nextRoundNo db, "ongoing"⟩] },
    freshRoundId db)

/-- Fresh autoincrement id for a new match row. -/
def freshMatchId (db : DB) : Nat :=
  (db.matchRows.foldl (fun acc m => max acc m.id) 0) + 1

/-- `add_match`: insert a match row; returns the new row's id. -/
def add_match (db : DB) (rid table_no : Nat) (p1 p2 : Option Nat)
    (result : Option MResult) (winner : Option Nat) (notes : Option String) : DB × Nat :=
  ({ db with matchRows :=
      db.matchRows ++ [⟨freshMatchId db, rid, table_no, p1, p2, result, winner, notes⟩] },
    freshMatchId db)

/-- `recompute_scores`: zero every score, then replay every reported match
through `update_score_for_match`. -/
def recompute_scores (db : DB) : DB :=
  { db with players :=
      db.matchRows.foldl applyScore (db.players.map fun p => { p with score := 0 }) }

/-- The persistence loop of `_pair_and_post`: one `add_match` per table, and
for a BYE the immediate point award. -/
def persistPairs (db : DB) (rid : Nat) : List PairedMatch → DB
  | [] => db
  | pm :: rest =>
    let r := add_match db rid pm.table_no (some pm.p1.id) (pm.p2.map fun x => x.id)
      (if pm.p2.isNone then some .bye else none)
      (if pm.p2.isNone then some pm.p1.id else none)
      (if pm.p2.isNone then some "BYE" else none)
    let db2 := if pm.p2.isNone then
        { r.1 with players :=
            update_score_for_match r.1.players (some pm.p1.id) none .bye (some pm.p1.id) }
      else r.1
    persistPairs db2 rid rest

/-- `_pair_and_post`: pair the active players and persist the tables (a "not
enough players" refusal persists nothing). -/
def pair_and_post (sh1 sh2 sh3 : List PlayerRow → List PlayerRow)
    (db : DB) (rid : Nat) : DB :=
  match pairCore sh1 sh2 sh3 (fetch_players db true) with
  | none => db
  | some pms => persistPairs db rid pms

/-- The distinct replies of `cmd_next_round`. -/
inductive Reply
  | notSwiss
  | unreported
  | notEnough
  | created
deriving DecidableEq

/-- `SwissAll.cmd_next_round` (lines 1582-1599): reject unless in the swiss
state; if the latest round is ongoing, reject while any of its matches is
unreported, else close it; then require ≥ 2 active players and create and
pair a new round. -/
def cmd_next_round (sh1 sh2 sh3 : List PlayerRow → List PlayerRow) (db : DB) : DB × Reply :=
  if db.status ≠ "swiss" then (db, .notSwiss)
  else
    match
      (match current_round db with
       | some cur =>
         if cur.status = "ongoing" then
           if (list_matches_round db cur.id).any fun m => m.result.isNone then none
           else some (close_round db cur.id)
         else some db
       | none => some db)
    with
    | none => (db, .unreported)
    | some db1 =>
      if (fetch_players db1 true).length < 2 then (db1, .notEnough)
      else
        let r := create_round db1
        (pair_and_post sh1 sh2 sh3 r.1 r.2, .created)

/-- The distinct replies of `cmd_make_top4`. -/
inductive T4Reply
  | notSwissT4
  | needFour
  | made
deriving DecidableEq

/-- `SwissAll.cmd_make_top4` (lines 1601-1623): require the swiss state,
recompute scores, compute active-only standings, require ≥ 4 rows, then
create one round with the FINAL (seed 1 vs 2, table 1) and THIRD (seed 3 vs
4, table 2) matches and move to `top4_finals`. -/
def cmd_make_top4 (db : DB) : DB × T4Reply :=
  if db.status ≠ "swiss" then (db, .notSwissT4)
  else
    let db1 := recompute_scores db
    match compute_standings db1.players db1.matchRows true with
    | a :: b :: c :: d :: _ =>
      let r := create_round db1
      let rf := add_match r.1 r.2 1 (some a.pid) (some b.pid) none none (some "FINAL")
      let rt := add_match rf.1 r.2 2 (some c.pid) (some d.pid) none none (some "THIRD")
      ({ rt.1 with status := "top4_finals" }, .made)
    | _ => (db1, .needFour)

/-- The return values of `add_player`. -/
inductive AddStatus
  | banned
  | already
  | reactivated
  | joined
deriving DecidableEq

/-- `SwissAll.add_player` (lines 332-361): refuse banned users; an existing
active row replies `already` untouched; an existing inactive row is
reactivated by setting only `active=1`; otherwise insert a fresh row
(`joined` models the Python return value `'new'`). -/
def add_player (db : DB) (uid : Nat) (dname : String) (active : Nat) : DB × AddStatus :=
  if uid ∈ db.bans then (db, .banned)
  else
    match db.players.find? fun p => p.user_id == uid with
    | some p =>
      if p.active = 1 then (db, .already)
      else
        ({ db with players := db.players.map fun q =>
            if q.id = p.id then { q with active := 1 } else q }, .reactivated)
    | none =>
      ({ db with players := db.players ++
          [⟨(db.players.foldl (fun acc q => max acc q.id) 0) + 1, uid, dname, active,
            0, none, none, none⟩] }, .joined)

theorem recompute_players_eq (db : DB) :
    (recompute_scores db).players = db.players.map fun p =>
      { p with score := 3 * ((db.matchRows.countP fun m => scoredBy m p.id : Nat) : ℚ) } := by
  unfold recompute_scores
  rw [foldl_applyScore_eq_map, List.map_map]
  refine List.map_congr_left fun p _ => ?_
  cases p
  simp

/-- A reported match is proper ("terminal non-void"): its result names a
side held by a registered player, and a bye seats exactly one side. -/
def properMatch (m : MatchRow) (pids : List Nat) : Prop :=
  match m.result with
  | none => True
  | some .p1 => ∃ w, m.p1_id = some w ∧ w ∈ pids
  | some .p2 => ∃ w, m.p2_id = some w ∧ w ∈ pids
  | some .bye => (∃ w, m.p1_id = some w ∧ w ∈ pids ∧ m.p2_id = none) ∨
      (∃ w, m.p2_id = some w ∧ w ∈ pids ∧ m.p1_id = none)

theorem scoredBy_proper {m : MatchRow} {pids : List Nat}
    (hprop : properMatch m pids) (hterm : m.result.isSome = true) :
    ∃ w ∈ pids, ∀ pid, scoredBy m pid = true ↔ pid = w := by
  unfold properMatch at hprop
  rcases hres : m.result with _ | res
  · rw [hres] at hterm
    cases hterm
  rcases res
  · simp only [hres] at hprop
    rcases hprop with ⟨w, hw, hwin⟩
    refine ⟨w, hwin, fun pid => ?_⟩
    unfold scoredBy
    rw [hres]
    simp only [hw, beq_iff_eq, Option.some_inj]
    exact eq_comm
  · simp only [hres] at hprop
    rcases hprop with ⟨w, hw, hwin⟩
    refine ⟨w, hwin, fun pid => ?_⟩
    unfold scoredBy
    rw [hres]
    simp only [hw, beq_iff_eq, Option.some_inj]
    exact eq_comm
  · simp only [hres] at hprop
    rcases hprop with ⟨w, hw, hwin, hnone⟩ | ⟨w, hw, hwin, hnone⟩
    · refine ⟨w, hwin, fun pid => ?_⟩
      unfold scoredBy
      rw [hres]
      simp only [hw, hnone, beq_iff_eq, Option.some_inj, Option.isNone_none, Option.isNone_some,
        Bool.and_true, Bool.and_false, Bool.or_false, beq_eq_false_iff_ne]
      exact eq_comm
    · refine ⟨w, hwin, fun pid => ?_⟩
      unfold scoredBy
      rw [hres]
      simp only [hw, hnone, beq_iff_eq, Option.some_inj, Option.isNone_none, Option.isNone_some,
        Bool.and_true, Bool.and_false, Bool.false_or, Bool.false_and, Bool.or_false,
        beq_eq_false_iff_ne]
      exact eq_comm

theorem sum_map_add {α : Type _} (f g : α → Nat) :
    ∀ l : List α, (l.map fun x => f x + g x).sum = (l.map f).sum + (l.map g).sum
  | [] => rfl
  | a :: l => by
    simp only [List.map_cons, List.sum_cons, sum_map_add f g l]
    omega

theorem sum_ind_count (w : Nat) :
    ∀ players : List PlayerRow,
      ((players.map fun p => if p.id = w then 1 else 0).sum) =
        (players.map fun p => p.id).count w
  | [] => rfl
  | p :: ps => by
    simp only [List.map_cons, List.sum_cons, List.count_cons, sum_ind_count w ps]
    by_cases h : p.id = w
    · subst h
      simp [Nat.add_comm]
    · have h2 : ¬ w = p.id := fun hc => h hc.symm
      simp [h, h2]

theorem sum_countP_scoredBy :
    ∀ (ms : List MatchRow) (players : List PlayerRow),
      (players.map fun p => p.id).Nodup →
      (∀ m ∈ ms, properMatch m (players.map fun p => p.id)) →
      ((players.map fun p => ms.countP fun m => scoredBy m p.id).sum) =
        ms.countP fun m => m.result.isSome
  | [], players, _, _ => by simp
  | m :: ms, players, hnd, hprop => by
    have ih := sum_countP_scoredBy ms players hnd fun m2 hm2 =>
      hprop m2 (List.mem_cons_of_mem m hm2)
    have hsplit : ((players.map fun p => (m :: ms).countP fun m2 => scoredBy m2 p.id).sum) =
        ((players.map fun p => if scoredBy m p.id then 1 else 0).sum) +
          ((players.map fun p => ms.countP fun m2 => scoredBy m2 p.id).sum) := by
      have : (players.map fun p => (m :: ms).countP fun m2 => scoredBy m2 p.id) =
          players.map fun p =>
            (if scoredBy m p.id then 1 else 0) + ms.countP fun m2 => scoredBy m2 p.id :=
        List.map_congr_left fun p _ => by
          rw [List.countP_cons]
          rcases h : scoredBy m p.id with _ | _ <;> simp [h, Nat.add_comm]
      rw [this]
      exact sum_map_add _ _ players
    rw [hsplit, ih, List.countP_cons]
    rcases hterm : m.result.isSome with _ | _
    · have hz : ((players.map fun p => if scoredBy m p.id then 1 else 0).sum) = 0 := by
        have : (players.map fun p => if scoredBy m p.id then 1 else 0) =
            players.map fun _ => 0 :=
          List.map_congr_left fun p _ => by
            have : scoredBy m p.id = false := by
              unfold scoredBy
              rcases hres : m.result with _ | res
              · rfl
              · rw [hres] at hterm
                cases hterm
            simp [this]
      
        rw [this]
        simp
      simp [hz, hterm]
    · rcases scoredBy_proper (hprop m (List.mem_cons_self m ms)) hterm with ⟨w, hwin, hiff⟩
      have hone : ((players.map fun p => if scoredBy m p.id then 1 else 0).sum) = 1 := by
        have : (players.map fun p => if scoredBy m p.id then 1 else 0) =
            players.map fun p => if p.id = w then 1 else 0 :=
          List.map_congr_left fun p _ => by
            by_cases h : p.id = w
            · rw [if_pos ((hiff p.id).mpr h), if_pos h]
            · rw [if_neg fun hc => h ((hiff p.id).mp hc), if_neg h]
        rw [this, sum_ind_count w players]
        exact List.count_eq_one_of_mem hnd hwin
      simp [hone, hterm, Nat.add_comm]

/-- **C9.** After a full `recompute_scores`, the players' scores sum to
3 times the number of reported (terminal, non-void) matches, byes included. -/
theorem recompute_scores_total (db : DB)
    (hnd : (db.players.map fun p => p.id).Nodup)
    (hprop : ∀ m ∈ db.matchRows, properMatch m (db.players.map fun p => p.id)) :
    (((recompute_scores db).players.map fun p => p.score).sum) =
      3 * ((db.matchRows.countP fun m => m.result.isSome : Nat) : ℚ) := by
  rw [recompute_players_eq, List.map_map]
  have h1 : ((db.players.map fun p =>
      3 * ((db.matchRows.countP fun m => scoredBy m p.id : Nat) : ℚ)).sum) =
      3 * ((db.players.map fun p =>
        ((db.matchRows.countP fun m => scoredBy m p.id : Nat) : ℚ)).sum) := by
    rw [← List.sum_map_mul_left]
  have h2 : ((db.players.map fun p =>
      ((db.matchRows.countP fun m => scoredBy m p.id : Nat) : ℚ)).sum) =
      (((db.players.map fun p => db.matchRows.countP fun m => scoredBy m p.id).sum : Nat) : ℚ) := by
    rw [Nat.cast_list_sum, List.map_map]
    rfl
  calc ((db.players.map ((fun p => p.score) ∘ fun p =>
        { p with score := 3 * ((db.matchRows.countP fun m => scoredBy m p.id : Nat) : ℚ) })).sum)
      = ((db.players.map fun p =>
          3 * ((db.matchRows.countP fun m => scoredBy m p.id : Nat) : ℚ)).sum) := by
        exact congrArg List.sum (List.map_congr_left fun p _ => rfl)
    _ = 3 * ((db.matchRows.countP fun m => m.result.isSome : Nat) : ℚ) := by
        rw [h1, h2, sum_countP_scoredBy db.matchRows db.players hnd hprop]

/-- Concrete roster for the C2 counterexample: one active player whose cached
score column reads 3 although no match was ever played. -/
def c2Player : PlayerRow := ⟨1, 1, "a", 1, 3, none, none, none⟩

/-- **C2 counterexample.** `compute_standings` reports the cached `players.score`
column as Pts: with a stale cache (score 3 on file, empty match history) the
reported Pts is 3, not the history-derived 3 × wins = 0. -/
theorem standings_points_counterexample :
    ∃ row ∈ compute_standings [c2Player] [] true,
      row.Pts ≠ 3 * ((([] : List MatchRow).countP fun m => scoredBy m row.pid : Nat) : ℚ) := by
  have hlen : (compute_standings [c2Player] [] true).length = 1 := by
    rw [compute_standings_length_active]
    decide
  have hne : compute_standings [c2Player] [] true ≠ [] := by
    intro h
    rw [h] at hlen
    cases hlen
  obtain ⟨row, hrow⟩ := List.exists_mem_of_ne_nil _ hne
  refine ⟨row, hrow, ?_⟩
  obtain ⟨p, hp, hpid, _, hpts, _, _, _⟩ := mem_compute_standings_stat hrow
  have hp1 : p = c2Player := by simpa using hp
  rw [hpts, hp1]
  norm_num [c2Player]

/-- **C2 (amended).** `compute_standings` reports the cached `players.score`
column as Pts rather than recounting the match history; only after
`recompute_scores` does each standings row's Pts equal 3 × its credited match
wins (byes included), while the row's stat does carry history-derived wins,
games played, and opponent set. -/
theorem standings_points_from_history (db : DB) (ao : Bool)
    (hnd : (db.players.map fun p => p.id).Nodup) :
    ∀ row ∈ compute_standings (recompute_scores db).players db.matchRows ao,
      row.Pts = 3 * ((db.matchRows.countP fun m => scoredBy m row.pid : Nat) : ℚ) ∧
      ∃ s, lookupStat (statsOf (recompute_scores db).players db.matchRows) row.pid = some s ∧
        s.wins = winCount db.matchRows row.pid ∧
        s.played = playedCount db.matchRows row.pid ∧
        s.opp = realOpps (recompute_scores db).players db.matchRows row.pid := by
  intro row hrow
  obtain ⟨p', hp', hpid, _, hpts, _, _, _⟩ := mem_compute_standings_stat hrow
  have hids : ((recompute_scores db).players.map fun q => q.id) =
      db.players.map fun q => q.id := by
    rw [recompute_players_eq, List.map_map]
    exact List.map_congr_left fun p _ => rfl
  have hnd' : ((recompute_scores db).players.map fun q => q.id).Nodup := by
    rw [hids]
    exact hnd
  constructor
  · rw [recompute_players_eq] at hp'
    obtain ⟨p, hp, hpe⟩ := List.mem_map.mp hp'
    rw [hpts, ← hpe, hpid, ← hpe]
  · refine ⟨statRow (recompute_scores db).players db.matchRows p', ?_, ?_, ?_, ?_⟩
    · rw [lookupStat_statsOf, hpid, find?_id_nodup _ hnd' p' hp', Option.map_some']
    · rw [hpid]
      simp [statRow]
    · rw [hpid]
      simp [statRow]
    · unfold statRow
      rw [oppAccum_eq_realOpps _ _ _ (List.mem_map_of_mem _ hp'), hpid]

/-- Concrete database for the C2 witness: two players, one reported match. -/
def c2db : DB :=
  ⟨"swiss",
   [⟨1, 1, "a", 1, 0, none, none, none⟩, ⟨2, 2, "b", 1, 0, none, none, none⟩],
   [⟨1, 1, "ongoing"⟩],
   [⟨1, 1, 1, some 1, some 2, some .p1, some 1, none⟩],
   []⟩

/-- Witness for the amended C2: the distinct-ids hypothesis holds on `c2db`
and the theorem applies. -/
theorem standings_points_from_history_witness :
    ((c2db.players.map fun p => p.id).Nodup) ∧
    ∀ row ∈ compute_standings (recompute_scores c2db).players c2db.matchRows true,
      row.Pts = 3 * ((c2db.matchRows.countP fun m => scoredBy m row.pid : Nat) : ℚ) ∧
      ∃ s, lookupStat (statsOf (recompute_scores c2db).players c2db.matchRows) row.pid = some s ∧
        s.wins = winCount c2db.matchRows row.pid ∧
        s.played = playedCount c2db.matchRows row.pid ∧
        s.opp = realOpps (recompute_scores c2db).players c2db.matchRows row.pid :=
  ⟨by decide, standings_points_from_history c2db true (by decide)⟩

/-- Witness for C9: on `c2db` the hypotheses hold (distinct ids, the single
reported match is proper) and the recomputed scores sum to 3 × 1. -/
theorem recompute_scores_total_witness :
    ((c2db.players.map fun p => p.id).Nodup) ∧
    (∀ m ∈ c2db.matchRows, properMatch m (c2db.players.map fun p => p.id)) ∧
    (((recompute_scores c2db).players.map fun p => p.score).sum) =
      3 * ((c2db.matchRows.countP fun m => m.result.isSome : Nat) : ℚ) := by
  refine ⟨by decide, ?_, ?_⟩
  · intro m hm
    have hm1 : m = ⟨1, 1, 1, some 1, some 2, some .p1, some 1, none⟩ := by
      simpa [c2db] using hm
    rw [hm1]
    exact ⟨1, rfl, by decide⟩
  · exact recompute_scores_total c2db (by decide) (fun m hm => by
      have hm1 : m = ⟨1, 1, 1, some 1, some 2, some .p1, some 1, none⟩ := by
        simpa [c2db] using hm
      rw [hm1]
      exact ⟨1, rfl, by decide⟩)

theorem persistPairs_rounds :
    ∀ (pms : List PairedMatch) (db : DB) (rid : Nat),
      (persistPairs db rid pms).rounds = db.rounds
  | [], _, _ => rfl
  | pm :: rest, db, rid => by
    simp only [persistPairs]
    rw [persistPairs_rounds rest]
    by_cases h : pm.p2.isNone <;> simp [h, add_match]

theorem pair_and_post_rounds (sh1 sh2 sh3 : List PlayerRow → List PlayerRow)
    (db : DB) (rid : Nat) :
    (pair_and_post sh1 sh2 sh3 db rid).rounds = db.rounds := by
  unfold pair_and_post
  rcases h : pairCore sh1 sh2 sh3 (fetch_players db true) with _ | pms
  · rfl
  · exact persistPairs_rounds pms db rid

/-- **C4 (amended).** When the latest round is `ongoing` and still has an
unreported match, `cmd_next_round` leaves the database unchanged and replies
"unreported" in the swiss state — but in any other state it rejects with the
not-in-swiss reply instead; and the unreported guard is skipped entirely when
the latest round's status is not `ongoing` (see the counterexample). -/
theorem cmd_next_round_rejects_unreported (sh1 sh2 sh3 : List PlayerRow → List PlayerRow)
    (db : DB) (cur : RoundRow) (hcur : current_round db = some cur)
    (hongo : cur.status = "ongoing")
    (hunset : ∃ m ∈ db.matchRows, m.round_id = cur.id ∧ m.result = none) :
    cmd_next_round sh1 sh2 sh3 db =
      (db, if db.status = "swiss" then Reply.unreported else Reply.notSwiss) := by
  have hany : ((list_matches_round db cur.id).any fun m => m.result.isNone) = true := by
    rcases hunset with ⟨m, hm, hrid, hres⟩
    rw [List.any_eq_true]
    exact ⟨m, List.mem_filter.mpr ⟨hm, by simp [hrid]⟩, by simp [hres]⟩
  unfold cmd_next_round
  by_cases hs : db.status = "swiss"
  · rw [if_neg (by simp [hs]), hcur, if_pos hs]
    simp only [hongo, if_true, hany]
  · rw [if_pos hs, if_neg hs]

/-- Database for the C4 counterexample: swiss state, the only (latest) round
is already `finished`, yet its single match has a NULL result (exactly the
state `_bulk_swap_commit` leaves behind when it clears results of a closed
round). -/
def c4db : DB :=
  ⟨"swiss",
   [⟨1, 1, "a", 1, 0, none, none, none⟩, ⟨2, 2, "b", 1, 0, none, none, none⟩],
   [⟨1, 1, "finished"⟩],
   [⟨1, 1, 1, some 1, some 2, none, none, none⟩],
   []⟩

/-- **C4 counterexample.** With the latest round `finished` but containing an
unreported match, `cmd_next_round` does NOT refuse: it replies "created" and
appends a new round, because the unreported-match guard only runs when the
latest round's status is `ongoing`. -/
theorem cmd_next_round_counterexample :
    (∃ cur, current_round c4db = some cur ∧
      ∃ m ∈ c4db.matchRows, m.round_id = cur.id ∧ m.result = none) ∧
    (cmd_next_round id id id c4db).2 = Reply.created ∧
    (cmd_next_round id id id c4db).1.rounds.length = c4db.rounds.length + 1 := by
  have hev : cmd_next_round id id id c4db =
      (pair_and_post id id id (create_round c4db).1 (create_round c4db).2, .created) := rfl
  refine ⟨⟨⟨1, 1, "finished"⟩, by decide,
    ⟨⟨1, 1, 1, some 1, some 2, none, none, none⟩, by decide, rfl, rfl⟩⟩, ?_, ?_⟩
  · rw [hev]
  · rw [hev, pair_and_post_rounds]
    rfl

/-- Database for the C4 witness: swiss state, one ongoing round with one
unreported match. -/
def c4wdb : DB :=
  ⟨"swiss",
   [⟨1, 1, "a", 1, 0, none, none, none⟩, ⟨2, 2, "b", 1, 0, none, none, none⟩],
   [⟨1, 1, "ongoing"⟩],
   [⟨1, 1, 1, some 1, some 2, none, none, none⟩],
   []⟩

/-- Witness for the amended C4: on `c4wdb` the hypotheses hold and
`cmd_next_round` rejects with "unreported". -/
theorem cmd_next_round_rejects_unreported_witness :
    current_round c4wdb = some ⟨1, 1, "ongoing"⟩ ∧
    (⟨1, 1, "ongoing"⟩ : RoundRow).status = "ongoing" ∧
    (∃ m ∈ c4wdb.matchRows, m.round_id = (⟨1, 1, "ongoing"⟩ : RoundRow).id ∧
      m.result = none) ∧
    cmd_next_round id id id c4wdb =
      (c4wdb, if c4wdb.status = "swiss" then Reply.unreported else Reply.notSwiss) :=
  ⟨by decide, rfl, ⟨⟨1, 1, 1, some 1, some 2, none, none, none⟩, by decide, rfl, rfl⟩,
    cmd_next_round_rejects_unreported id id id c4wdb ⟨1, 1, "ongoing"⟩ (by decide) rfl
      ⟨⟨1, 1, 1, some 1, some 2, none, none, none⟩, by decide, rfl, rfl⟩⟩

/-- **C10.** `add_player` on a user who already has a player row: a banned
user is refused outright; an active row replies "already exists" with the
database untouched; an inactive row is reactivated by flipping only that
row's `active` flag to 1 — every other column of every player, and the
matches, rounds, bans, and tournament status, are unchanged (in particular
the stored display name and deck data are NOT updated from the arguments). -/
theorem add_player_existing (db : DB) (uid : Nat) (dname : String) (act : Nat)
    (p : PlayerRow) (hfind : (db.players.find? fun q => q.user_id == uid) = some p) :
    (uid ∈ db.bans → add_player db uid dname act = (db, .banned)) ∧
    (uid ∉ db.bans → p.active = 1 → add_player db uid dname act = (db, .already)) ∧
    (uid ∉ db.bans → p.active ≠ 1 →
      ∃ db2, add_player db uid dname act = (db2, .reactivated) ∧
        db2.status = db.status ∧ db2.rounds = db.rounds ∧
        db2.matchRows = db.matchRows ∧ db2.bans = db.bans ∧
        db2.players.length = db.players.length ∧
        (db2.players.map fun q => q.id) = (db.players.map fun q => q.id) ∧
        (db2.players.map fun q => q.user_id) = (db.players.map fun q => q.user_id) ∧
        (db2.players.map fun q => q.display_name) =
          (db.players.map fun q => q.display_name) ∧
        (db2.players.map fun q => q.score) = (db.players.map fun q => q.score) ∧
        (db2.players.map fun q => q.deck1) = (db.players.map fun q => q.deck1) ∧
        (db2.players.map fun q => q.deck2) = (db.players.map fun q => q.deck2) ∧
        (db2.players.map fun q => q.actual_class) =
          (db.players.map fun q => q.actual_class) ∧
        (db2.players.map fun q => q.active) =
          (db.players.map fun q => if q.id = p.id then 1 else q.active)) := by
  refine ⟨fun hban => ?_, fun hban hact => ?_, fun hban hact => ?_⟩
  · unfold add_player
    rw [if_pos hban]
  · unfold add_player
    rw [if_neg hban, hfind]
    simp only [hact, if_true]
  · refine ⟨{ db with players := db.players.map fun q =>
        if q.id = p.id then { q with active := 1 } else q }, ?_, rfl, rfl, rfl, rfl,
      by simp, ?_, ?_, ?_, ?_, ?_, ?_, ?_, ?_⟩
    · unfold add_player
      rw [if_neg hban, hfind]
      simp only [if_neg hact]
    all_goals {
      simp only [List.map_map]
      refine List.map_congr_left fun q _ => ?_
      by_cases h : q.id = p.id <;> simp [h]
    }

/-- The inactive player row used by the C10 witness. -/
def c10p : PlayerRow := ⟨1, 7, "old", 0, 3, some "Forest", none, none⟩

/-- Database for the C10 witness: `c10p` is inactive, another player is
active, user 9 is banned. -/
def c10db : DB :=
  ⟨"registration", [c10p, ⟨2, 8, "b", 1, 0, none, none, none⟩], [], [], [9]⟩

/-- Witness for C10: re-adding user 7 reactivates `c10p` and changes nothing
else. -/
theorem add_player_existing_witness :
    ((c10db.players.find? fun q => q.user_id == 7) = some c10p) ∧
    (7 ∉ c10db.bans ∧ c10p.active ≠ 1) ∧
    (∃ db2, add_player c10db 7 "new" 1 = (db2, .reactivated) ∧
      db2.status = c10db.status ∧ db2.rounds = c10db.rounds ∧
      db2.matchRows = c10db.matchRows ∧ db2.bans = c10db.bans ∧
      db2.players.length = c10db.players.length ∧
      (db2.players.map fun q => q.id) = (c10db.players.map fun q => q.id) ∧
      (db2.players.map fun q => q.user_id) = (c10db.players.map fun q => q.user_id) ∧
      (db2.players.map fun q => q.display_name) =
        (c10db.players.map fun q => q.display_name) ∧
      (db2.players.map fun q => q.score) = (c10db.players.map fun q => q.score) ∧
      (db2.players.map fun q => q.deck1) = (c10db.players.map fun q => q.deck1) ∧
      (db2.players.map fun q => q.deck2) = (c10db.players.map fun q => q.deck2) ∧
      (db2.players.map fun q => q.actual_class) =
        (c10db.players.map fun q => q.actual_class) ∧
      (db2.players.map fun q => q.active) =
        (c10db.players.map fun q => if q.id = c10p.id then 1 else q.active)) :=
  ⟨rfl, ⟨by decide, by decide⟩,
    (add_player_existing c10db 7 "new" 1 c10p rfl).2.2 (by decide) (by decide)⟩

theorem le_foldl_max_round :
    ∀ (l : List RoundRow) (init : Nat),
      init ≤ l.foldl (fun acc r => max acc r.id) init ∧
      ∀ r ∈ l, r.id ≤ l.foldl (fun acc r => max acc r.id) init
  | [], init => ⟨Nat.le_refl _, fun r hr => absurd hr (List.not_mem_nil r)⟩
  | a :: l, init => by
    have ih := le_foldl_max_round l (max init a.id)
    rw [List.foldl_cons]
    refine ⟨Nat.le_trans (Nat.le_max_left _ _) ih.1, fun r hr => ?_⟩
    rcases List.mem_cons.mp hr with h | h
    · subst h
      exact Nat.le_trans (Nat.le_max_right init r.id) ih.1
    · exact ih.2 r h

theorem roundId_lt_fresh (db : DB) : ∀ r ∈ db.rounds, r.id < freshRoundId db := by
  intro r hr
  have h := (le_foldl_max_round db.rounds 0).2 r hr
  unfold freshRoundId
  omega

theorem filter_false_nil {α : Type _} (p : α → Bool) :
    ∀ l : List α, (∀ x ∈ l, p x = false) → l.filter p = []
  | [], _ => rfl
  | x :: l, h => by
    rw [List.filter_cons, h x (List.mem_cons_self x l)]
    simp only [Bool.false_eq_true, if_false]
    exact filter_false_nil p l fun y hy => h y (List.mem_cons_of_mem x hy)

/-- **C5.** In the swiss state, when the recomputed active-only standings have
at least four rows, `/make_top4` succeeds: it creates exactly one new
(`ongoing`) round holding exactly two new unreported matches — the FINAL
(seed 1 vs seed 2, table 1) and the THIRD-place match (seed 3 vs seed 4,
table 2) — and moves the tournament status to `top4_finals`. -/
theorem cmd_make_top4_spec (db : DB) (hsw : db.status = "swiss")
    (a b c d : StandingRow) (rest : List StandingRow)
    (hst : compute_standings (recompute_scores db).players
      (recompute_scores db).matchRows true = a :: b :: c :: d :: rest)
    (href : ∀ m ∈ db.matchRows, m.round_id ∈ db.rounds.map fun r => r.id) :
    ∃ db2, cmd_make_top4 db = (db2, .made) ∧
      db2.status = "top4_finals" ∧
      db2.rounds = db.rounds ++ [⟨freshRoundId db, nextRoundNo db, "ongoing"⟩] ∧
      db2.matchRows.length = db.matchRows.length + 2 ∧
      (db2.matchRows.filter fun m => m.round_id == freshRoundId db).map
          (fun m => (m.table_no, m.p1_id, m.p2_id, m.result, m.winner_player_id, m.notes)) =
        [(1, some a.pid, some b.pid, none, none, some "FINAL"),
         (2, some c.pid, some d.pid, none, none, some "THIRD")] := by
  have hnil : (db.matchRows.filter fun m => m.round_id == freshRoundId db) = [] :=
    filter_false_nil _ _ fun m hm => by
      rcases List.mem_map.mp (href m hm) with ⟨r, hr, hrid⟩
      have hlt := roundId_lt_fresh db r hr
      rw [beq_eq_false_iff_ne]
      omega
  have hms : (recompute_scores db).matchRows = db.matchRows := rfl
  have hfr : freshRoundId (recompute_scores db) = freshRoundId db := rfl
  unfold cmd_make_top4
  rw [if_neg (by simp [hsw])]
  simp only [hst]
  refine ⟨_, rfl, rfl, rfl, ?_, ?_⟩
  · simp [add_match, create_round, hms]
  · simp only [add_match, create_round, hms, hfr, List.filter_append, hnil,
      List.filter_cons, List.filter_nil, beq_self_eq_true, if_true, List.nil_append,
      List.map_cons, List.map_nil]
    rfl

theorem exists_four_cons {α : Type _} (l : List α) (h : l.length = 4) :
    ∃ a b c d, l = [a, b, c, d] := by
  rcases l with _ | ⟨a, _ | ⟨b, _ | ⟨c, _ | ⟨d, _ | ⟨e, t⟩⟩⟩⟩⟩
  · simp at h
  · simp at h
  · simp at h
  · simp at h
  · exact ⟨a, b, c, d, rfl⟩
  · simp [List.length_cons] at h

/-- Database for the C5 witness: four active players in the swiss state. -/
def c5db : DB :=
  ⟨"swiss",
   [⟨1, 1, "a", 1, 0, none, none, none⟩, ⟨2, 2, "b", 1, 0, none, none, none⟩,
    ⟨3, 3, "c", 1, 0, none, none, none⟩, ⟨4, 4, "d", 1, 0, none, none, none⟩],
   [], [], []⟩

/-- Witness for C5: on `c5db` the standings have four rows and `/make_top4`
creates the FINAL and THIRD matches in one new round. -/
theorem cmd_make_top4_spec_witness :
    c5db.status = "swiss" ∧
    ∃ a b c d, compute_standings (recompute_scores c5db).players
        (recompute_scores c5db).matchRows true = a :: b :: c :: d :: [] ∧
      (∀ m ∈ c5db.matchRows, m.round_id ∈ c5db.rounds.map fun r => r.id) ∧
      ∃ db2, cmd_make_top4 c5db = (db2, .made) ∧
        db2.status = "top4_finals" ∧
        db2.rounds = c5db.rounds ++ [⟨freshRoundId c5db, nextRoundNo c5db, "ongoing"⟩] ∧
        db2.matchRows.length = c5db.matchRows.length + 2 ∧
        (db2.matchRows.filter fun m => m.round_id == freshRoundId c5db).map
            (fun m => (m.table_no, m.p1_id, m.p2_id, m.result, m.winner_player_id, m.notes)) =
          [(1, some a.pid, some b.pid, none, none, some "FINAL"),
           (2, some c.pid, some d.pid, none, none, some "THIRD")] := by
  have hlen : (compute_standings (recompute_scores c5db).players
      (recompute_scores c5db).matchRows true).length = 4 := by
    rw [compute_standings_length_active, recompute_players_eq, List.countP_map]
    decide
  obtain ⟨a, b, c, d, hst⟩ := exists_four_cons _ hlen
  exact ⟨rfl, a, b, c, d, hst, fun m hm => absurd hm (List.not_mem_nil m),
    cmd_make_top4_spec c5db rfl a b c d [] hst (fun m hm => absurd hm (List.not_mem_nil m))⟩

/-- Roster for the C7 counterexample: two distinct players whose display
names agree up to case. -/
def c7players : List PlayerRow :=
  [⟨1, 1, "Amy", 1, 0, none, none, none⟩, ⟨2, 2, "amy", 1, 0, none, none, none⟩]

/-- **C7 counterexample.** The sort key `(-Pts, -OppMW, name.lower())` is not
a total order on the rows: with the case-insensitively equal names "Amy" and
"amy" the two standings rows are distinct yet neither strictly precedes the
other under the key. -/
theorem standings_sorted_counterexample :
    compute_standings c7players [] true =
      [⟨1, 1, "Amy", 0, 0, 0, 0.26123⟩, ⟨2, 2, "amy", 0, 0, 0, 0.26123⟩] ∧
    ("Amy" : String) ≠ "amy" ∧
    ¬ rowKeyLt ⟨1, 1, "Amy", 0, 0, 0, 0.26123⟩ ⟨2, 2, "amy", 0, 0, 0, 0.26123⟩ ∧
    ¬ rowKeyLt ⟨2, 2, "amy", 0, 0, 0, 0.26123⟩ ⟨1, 1, "Amy", 0, 0, 0, 0.26123⟩ := by
  have hlow : lowerName "Amy" = lowerName "amy" := by decide
  refine ⟨?_, by decide, ?_, ?_⟩
  · norm_num [compute_standings, statsOf, initStat, enrich, mwpOf, oppMWOf, oppsOf,
      sosOf, sossOf, oppt1Of, mwpL, ptsL, oppL, lookupStat, hasPid, standLe,
      lowerName, lexLt, List.insertionSort, List.orderedInsert, c7players,
      List.enum, List.enumFrom, List.filterMap_cons]
  · intro h
    rcases h with h | ⟨-, h | ⟨-, h⟩⟩
    · exact absurd h (by norm_num)
    · exact absurd h (by norm_num)
    · rw [show (StandingRow.mk 1 1 "Amy" 0 0 0 0.26123).name = "Amy" from rfl,
        show (StandingRow.mk 2 2 "amy" 0 0 0 0.26123).name = "amy" from rfl, hlow] at h
      exact lexLt_irrefl _ h
  · intro h
    rcases h with h | ⟨-, h | ⟨-, h⟩⟩
    · exact absurd h (by norm_num)
    · exact absurd h (by norm_num)
    · rw [show (StandingRow.mk 1 1 "Amy" 0 0 0 0.26123).name = "Amy" from rfl,
        show (StandingRow.mk 2 2 "amy" 0 0 0 0.26123).name = "amy" from rfl, hlow] at h
      exact lexLt_irrefl _ h

/-- Roster for the C6 witness. -/
def c6players : List PlayerRow :=
  [⟨1, 1, "a", 1, 3, none, none, none⟩, ⟨2, 2, "b", 1, 0, none, none, none⟩]

/-- Match history for the C6 witness: one reported match. -/
def c6ms : List MatchRow := [⟨1, 1, 1, some 1, some 2, some .p1, some 1, none⟩]

/-- Witness for C6: the concrete roster's standings are nonempty and the
theorem applies to one of the rows. -/
theorem standings_mwp_oppmw_witness :
    ∃ row ∈ compute_standings c6players c6ms true,
      row.MWP = mwpSpec c6ms row.pid ∧
      row.OppMW = (if (realOpps c6players c6ms row.pid).card = 0 then 0
        else (∑ q ∈ realOpps c6players c6ms row.pid, mwpSpec c6ms q) /
          ((realOpps c6players c6ms row.pid).card : ℚ)) := by
  have hlen : (compute_standings c6players c6ms true).length = 2 := by
    rw [compute_standings_length_active]
    decide
  have hne : compute_standings c6players c6ms true ≠ [] := by
    intro h
    rw [h] at hlen
    cases hlen
  obtain ⟨row, hrow⟩ := List.exists_mem_of_ne_nil _ hne
  exact ⟨row, hrow, standings_mwp_oppmw c6players c6ms true row hrow⟩

/-- Roster for the C8 witness. -/
def c8players : List PlayerRow :=
  [⟨1, 1, "a", 1, 3, none, none, none⟩, ⟨2, 2, "b", 1, 0, none, none, none⟩]

/-- Match history for the C8 witness. -/
def c8ms : List MatchRow := [⟨1, 1, 1, some 1, some 2, some .p1, some 1, none⟩]

/-- Witness for C8: the concrete roster's standings are nonempty and the
OPPT1 formula theorem applies to one of the rows. -/
theorem standings_oppt1_formula_witness :
    ∃ row ∈ compute_standings c8players c8ms true,
      row.OPPT1 = 0.26123 + 0.004312 * row.Pts -
        0.007638 * (∑ q ∈ realOpps c8players c8ms row.pid, scoreOf c8players q) +
        0.003810 * (∑ q ∈ realOpps c8players c8ms row.pid,
          ∑ r ∈ (realOpps c8players c8ms q).erase row.pid, scoreOf c8players r) +
        0.23119 * row.OppMW := by
  have hlen : (compute_standings c8players c8ms true).length = 2 := by
    rw [compute_standings_length_active]
    decide
  have hne : compute_standings c8players c8ms true ≠ [] := by
    intro h
    rw [h] at hlen
    cases hlen
  obtain ⟨row, hrow⟩ := List.exists_mem_of_ne_nil _ hne
  exact ⟨row, hrow, standings_oppt1_formula c8players c8ms true row hrow⟩

/-- Roster for the C7 witness: distinct case-insensitive names. -/
def c7wplayers : List PlayerRow :=
  [⟨1, 1, "Bob", 1, 3, none, none, none⟩, ⟨2, 2, "amy", 1, 0, none, none, none⟩]

/-- Witness for the amended C7: with pairwise distinct lowercased names both
the weak and the strict key orders hold along the standings. -/
theorem standings_sorted_total_witness :
    (c7wplayers.Pairwise fun p q =>
      lowerName p.display_name ≠ lowerName q.display_name) ∧
    ((compute_standings c7wplayers [] true).Pairwise rowKeyLe ∧
      (compute_standings c7wplayers [] true).Pairwise rowKeyLt) :=
  ⟨by decide, standings_sorted_total c7wplayers [] true (by decide)⟩

end Swiss
